import Mathlib

/-!
Verification of the optimization engine of the hospital route optimization
repository (greedy, genetic-algorithm and simulated-annealing optimizers,
composite fitness, local search).

Modelling conventions:
* Python floats are modelled as exact rationals (`ℚ`); `float('inf')` is
  modelled by `WithTop ℚ` where it can actually arise.
* The geodesic distance oracle (`utils/distance.calculate_distance`, a thin
  wrapper over an external geopy call) is an explicit parameter `geo`.
* The float square root used by `LoadBalancePenalty` (`variance ** 0.5`) and
  the Euclidean fallback of `AutonomyPenalty` (`math.sqrt`) are explicit
  function parameters `sqrtq` and `eucl`; theorems quantify over them, and
  concrete runs instantiate them with functions that agree with the real
  float computation on every argument that actually occurs in that run.
* Pseudo-random draws (`random.random`, `random.choice`, `random.randint`,
  `random.shuffle`, `random.sample`) are explicit parameters; an index draw
  is taken modulo the size of the collection it selects from, which is a
  surjective encoding of the values the Python generator can produce.
* Python exceptions are modelled by `Except PyError`; the optimizers'
  `try/except Exception: raise OptimizationError(...) from e` wrappers are
  modelled by `PyError.optimizationError` with the original error as cause.
-/

namespace HospitalRoutes

/-- core/interfaces.py `Delivery` dataclass.  The time-window and service-time
fields exist in the source but are read by none of the optimization code. -/
structure Delivery where
  id : String
  location : ℚ × ℚ
  priority : ℤ
  weight : ℚ
  time_window_start : Option ℚ := none
  time_window_end : Option ℚ := none
  estimated_service_time : ℚ := 1/2
deriving Repr, DecidableEq

/-- core/interfaces.py `VehicleConstraints` dataclass. -/
structure VehicleConstraints where
  max_capacity : ℚ
  max_range : ℚ
  fuel_cost_per_km : ℚ
  driver_cost_per_hour : ℚ
deriving Repr, DecidableEq

/-- core/interfaces.py `RouteSolution` dataclass.  The free-form `metadata`
map is omitted: the engine never reads it. -/
structure RouteSolution where
  routes : List (List String)
  total_distance : ℚ
  total_cost : ℚ
  fitness_score : ℚ
  violations : List (String × ℚ)
deriving Repr, DecidableEq

/-- core/interfaces.py `OptimizationConfig` dataclass (no validation is
performed on construction in the source). -/
structure OptimizationConfig where
  population_size : ℤ := 100
  generations : ℤ := 200
  crossover_rate : ℚ := 8/10
  mutation_rate : ℚ := 2/10
  elite_size : ℤ := 10
  max_vehicles : ℤ := 5
  max_iterations_without_improvement : Option ℤ := none
deriving Repr, DecidableEq

/-- core/interfaces.py `OptimizationResult`.  `execution_time` (wall clock),
the echoed `config` and the free-form `statistics` map are omitted. -/
structure OptimizationResult where
  solution : RouteSolution
  generations_evolved : ℤ
  best_fitness_history : List ℚ
deriving Repr, DecidableEq

/-- utils/config.py `FitnessWeights` dataclass (five weights; the dataclass
has no `load_balance_penalty` attribute). -/
structure FitnessWeights where
  distance_weight : ℚ := 1
  capacity_penalty : ℚ := 1000
  autonomy_penalty : ℚ := 1000
  priority_penalty : ℚ := 500
  vehicle_penalty : ℚ := 100
deriving Repr, DecidableEq

/-- Default-constructed `FitnessWeights()`. -/
def defaultWeights : FitnessWeights := {}

/-- Python exception values observable from the optimizers.
`optimizationError` is core/exceptions.py `OptimizationError` carrying its
`__cause__`; `dataValidationError` is `DataValidationError` (a direct
subclass of the base `HospitalRouteOptimizationError`, not of
`OptimizationError`) carrying its message. -/
inductive PyError
  | dataValidationError (msg : String)
  | optimizationError (cause : PyError)
  | attributeError
  | valueError
  | nameError
  | indexError
deriving Repr, DecidableEq

/-- Decidable equality for `Except`, used to evaluate concrete optimizer
runs. -/
instance exceptDecEq {e a : Type} [DecidableEq e] [DecidableEq a] :
    DecidableEq (Except e a) := fun x y =>
  match x, y with
  | .error e1, .error e2 =>
    if h : e1 = e2 then .isTrue (by rw [h])
    else .isFalse (by intro hc; cases hc; exact h rfl)
  | .error _, .ok _ => .isFalse (by intro hc; cases hc)
  | .ok _, .error _ => .isFalse (by intro hc; cases hc)
  | .ok v1, .ok v2 =>
    if h : v1 = v2 then .isTrue (by rw [h])
    else .isFalse (by intro hc; cases hc; exact h rfl)

/-- Whether the outermost raised exception is a `DataValidationError`. -/
def raisedDataValidation {α : Type} : Except PyError α → Bool
  | .error (.dataValidationError _) => true
  | _ => false

/-- Whether the outermost raised exception is an `OptimizationError` whose
direct cause is a `DataValidationError`. -/
def raisedWrappedValidation {α : Type} : Except PyError α → Bool
  | .error (.optimizationError (.dataValidationError _)) => true
  | _ => false

/-- utils/validators.py `validate_deliveries`, per-delivery loop; `seen` is
the accumulated `delivery_ids` set.  Python truthiness of `not delivery.id`
rejects the empty string id. -/
def validateDeliveriesLoop : List Delivery → List String → Except String Unit
  | [], _ => .ok ()
  | d :: rest, seen =>
    if d.id = "" then .error "Entrega deve ter ID"
    else if d.id ∈ seen then .error ("ID duplicado: " ++ d.id)
    else if d.weight ≤ 0 then .error ("Peso inválido para entrega " ++ d.id)
    else if ¬ (d.priority = 1 ∨ d.priority = 2) then
      .error ("Prioridade inválida para entrega " ++ d.id ++ ". Deve ser 1 (crítico) ou 2 (normal)")
    else validateDeliveriesLoop rest (d.id :: seen)

/-- utils/validators.py `validate_deliveries`.  The `String` error is the
`DataValidationError` message. -/
def validateDeliveries (dels : List Delivery) : Except String Unit :=
  if dels = [] then .error "Lista de entregas não pode estar vazia"
  else validateDeliveriesLoop dels []

/-- utils/validators.py `validate_vehicles`. -/
def validateVehicles : List VehicleConstraints → Except String Unit
  | [] => .error "Lista de veículos não pode estar vazia"
  | vehs => validateVehiclesLoop vehs
where
  validateVehiclesLoop : List VehicleConstraints → Except String Unit
  | [] => .ok ()
  | v :: rest =>
    if v.max_capacity ≤ 0 then .error "Capacidade máxima deve ser positiva"
    else if v.max_range ≤ 0 then .error "Autonomia máxima deve ser positiva"
    else if v.fuel_cost_per_km < 0 then .error "Custo de combustível não pode ser negativo"
    else if v.driver_cost_per_hour < 0 then .error "Custo do motorista não pode ser negativo"
    else validateVehiclesLoop rest

/-- Geographic point (latitude, longitude). -/
abbrev Point : Type := ℚ × ℚ

/-- External geodesic oracle (utils/distance.py `calculate_distance`). -/
abbrev Geo : Type := Point → Point → ℚ

/-- Distance matrix, modelled as the insertion-ordered entry list of the
Python dict built by `_build_distance_matrix`. -/
abbrev Matrix : Type := List ((String × String) × ℚ)

/-- Python `dict` lookup on the entry list: the last insertion wins. -/
def mget (mat : Matrix) (k : String × String) : Option ℚ :=
  mat.reverse.lookup k

/-- Distance-matrix construction shared verbatim by
`GreedyOptimizer._build_distance_matrix`,
`GeneticAlgorithmOptimizer._build_distance_matrix` and
`SimulatedAnnealingOptimizer._build_distance_matrix`: distances between
distinct delivery ids, plus depot rows keyed by `"depot"`. -/
def matrixEntries (geo : Geo) (dels : List Delivery) (depot : Point) : Matrix :=
  (dels.flatMap fun d1 =>
    dels.filterMap fun d2 =>
      if d1.id ≠ d2.id then some ((d1.id, d2.id), geo d1.location d2.location) else none)
  ++ dels.flatMap fun d =>
      [(("depot", d.id), geo depot d.location), ((d.id, "depot"), geo d.location depot)]

/-- Python dict `{d.id: d for d in deliveries}` lookup: the last delivery
with a given id wins. -/
def deliveryDict (dels : List Delivery) (id : String) : Option Delivery :=
  dels.reverse.find? (fun d => d.id == id)

/-- Route weight as computed throughout the source:
`sum(delivery_dict[d].weight for d in route if d in delivery_dict)`. -/
def routeWeight (dels : List Delivery) (route : List String) : ℚ :=
  (route.map fun id =>
    match deliveryDict dels id with
    | some d => d.weight
    | none => 0).sum

/-- fitness/distance_fitness.py `DistanceFitness.calculate`. -/
def distanceFitness (w : ℚ) (sol : RouteSolution) : ℚ :=
  w * sol.total_distance

/-- fitness/capacity_penalty.py `CapacityPenalty.calculate`, enumeration
loop starting at route index `i`. -/
def capacityPenaltyFrom (w : ℚ) (dels : List Delivery) (vehs : List VehicleConstraints) :
    ℕ → List (List String) → ℚ
  | _, [] => 0
  | i, route :: rest =>
    (match vehs[i]? with
     | none => w * 1000
     | some v =>
       let rw := routeWeight dels route
       if rw > v.max_capacity then w * (rw - v.max_capacity) else 0)
    + capacityPenaltyFrom w dels vehs (i + 1) rest

/-- fitness/capacity_penalty.py `CapacityPenalty.calculate`. -/
def capacityPenalty (w : ℚ) (sol : RouteSolution) (dels : List Delivery)
    (vehs : List VehicleConstraints) : ℚ :=
  capacityPenaltyFrom w dels vehs 0 sol.routes

/-- fitness/autonomy_penalty.py location string key
`(f"{loc1[0]},{loc1[1]}", ...)` used by `_calculate_distance`. -/
def locKey (p : Point) : String :=
  toString p.1 ++ "," ++ toString p.2

/-- fitness/autonomy_penalty.py `AutonomyPenalty._calculate_distance`:
matrix lookup under location-string keys, with the Euclidean `math.sqrt`
fallback modelled by the parameter `eucl`. -/
def lowDistance (mat : Matrix) (eucl : Point → Point → ℚ) (p q : Point) : ℚ :=
  match mget mat (locKey p, locKey q) with
  | some v => v
  | none => eucl p q

/-- fitness/autonomy_penalty.py per-route round-trip distance: depot to the
first stop, consecutive stops, last stop back to depot, each stop located
through `next(d for d in deliveries if d.id == ...)` (first match). -/
def autRouteDistance (dels : List Delivery) (mat : Matrix) (eucl : Point → Point → ℚ)
    (depot : Point) (route : List String) : ℚ :=
  let find1 := fun id => dels.find? (fun d => d.id == id)
  (match route.head? with
   | some id0 =>
     match find1 id0 with
     | some d => lowDistance mat eucl depot d.location
     | none => 0
   | none => 0)
  + ((route.zip route.tail).map fun (a, b) =>
      match find1 a, find1 b with
      | some d1, some d2 => lowDistance mat eucl d1.location d2.location
      | _, _ => 0).sum
  + (match route.getLast? with
     | some idl =>
       match find1 idl with
       | some d => lowDistance mat eucl d.location depot
       | none => 0
     | none => 0)

/-- fitness/autonomy_penalty.py `AutonomyPenalty.calculate`, enumeration
loop starting at route index `i`. -/
def autonomyPenaltyFrom (w : ℚ) (dels : List Delivery) (vehs : List VehicleConstraints)
    (depot : Point) (mat : Matrix) (eucl : Point → Point → ℚ) :
    ℕ → List (List String) → ℚ
  | _, [] => 0
  | i, route :: rest =>
    (match vehs[i]? with
     | none => w * 1000
     | some v =>
       let rd := autRouteDistance dels mat eucl depot route
       if rd > v.max_range then w * (rd - v.max_range) else 0)
    + autonomyPenaltyFrom w dels vehs depot mat eucl (i + 1) rest

/-- fitness/autonomy_penalty.py `AutonomyPenalty.calculate`. -/
def autonomyPenalty (w : ℚ) (sol : RouteSolution) (dels : List Delivery)
    (vehs : List VehicleConstraints) (depot : Point) (mat : Matrix)
    (eucl : Point → Point → ℚ) : ℚ :=
  autonomyPenaltyFrom w dels vehs depot mat eucl 0 sol.routes

/-- fitness/priority_penalty.py inner loop: position-indexed penalty for
critical (`priority == 1`) deliveries within one route. -/
def priorityRoutePenaltyFrom (w : ℚ) (dels : List Delivery) : ℕ → List String → ℚ
  | _, [] => 0
  | pos, id :: rest =>
    (match deliveryDict dels id with
     | some d => if d.priority = 1 then (pos : ℚ) * w else 0
     | none => 0)
    + priorityRoutePenaltyFrom w dels (pos + 1) rest

/-- fitness/priority_penalty.py `PriorityPenalty.calculate`. -/
def priorityPenalty (w : ℚ) (sol : RouteSolution) (dels : List Delivery) : ℚ :=
  (sol.routes.map (priorityRoutePenaltyFrom w dels 0)).sum

/-- fitness/load_balance_penalty.py `LoadBalancePenalty.calculate`; `sqrtq`
models the float `variance ** 0.5`. -/
def loadBalancePenalty (w : ℚ) (sqrtq : ℚ → ℚ) (sol : RouteSolution)
    (dels : List Delivery) : ℚ :=
  if sol.routes = [] then 0
  else
    let loads := sol.routes.map (routeWeight dels)
    if loads = [] then 0
    else
      let n : ℚ := loads.length
      let mean := loads.sum / n
      let variance := (loads.map fun l => (l - mean) ^ 2).sum / n
      let std := sqrtq variance
      let cv := if mean > 0 then std / mean else 0
      w * (cv * mean)

/-- fitness/composite_fitness.py `CompositeFitness.calculate`.  The
load-balance weight is `getattr(weights, 'load_balance_penalty', 0.5)`,
which is always `0.5` because `FitnessWeights` has no such attribute. -/
def compositeCalculate (wts : FitnessWeights) (sqrtq : ℚ → ℚ) (eucl : Point → Point → ℚ)
    (sol : RouteSolution) (dels : List Delivery) (vehs : List VehicleConstraints)
    (depot : Point) (mat : Matrix) : ℚ :=
  distanceFitness wts.distance_weight sol
  + capacityPenalty wts.capacity_penalty sol dels vehs
  + autonomyPenalty wts.autonomy_penalty sol dels vehs depot mat eucl
  + priorityPenalty wts.priority_penalty sol dels
  + loadBalancePenalty (1/2) sqrtq sol dels
  + wts.vehicle_penalty * sol.routes.length

/-- fitness/composite_fitness.py `get_components_breakdown` result. -/
structure FitnessBreakdown where
  distance : ℚ
  capacity_penalty : ℚ
  autonomy_penalty : ℚ
  priority_penalty : ℚ
  load_balance_penalty : ℚ
  vehicle_penalty : ℚ
deriving Repr, DecidableEq

/-- fitness/composite_fitness.py `CompositeFitness.get_components_breakdown`. -/
def compositeBreakdown (wts : FitnessWeights) (sqrtq : ℚ → ℚ) (eucl : Point → Point → ℚ)
    (sol : RouteSolution) (dels : List Delivery) (vehs : List VehicleConstraints)
    (depot : Point) (mat : Matrix) : FitnessBreakdown where
  distance := distanceFitness wts.distance_weight sol
  capacity_penalty := capacityPenalty wts.capacity_penalty sol dels vehs
  autonomy_penalty := autonomyPenalty wts.autonomy_penalty sol dels vehs depot mat eucl
  priority_penalty := priorityPenalty wts.priority_penalty sol dels
  load_balance_penalty := loadBalancePenalty (1/2) sqrtq sol dels
  vehicle_penalty := wts.vehicle_penalty * sol.routes.length

end HospitalRoutes

namespace HospitalRoutes

/-- Capacity loop of `validate_solution` (identical in
greedy_optimizer.py, genetic_algorithm.py and
simulated_annealing_optimizer.py): a route index with no corresponding
vehicle fails, an over-capacity route fails. -/
def checkRoutesFrom (dels : List Delivery) (vehs : List VehicleConstraints) :
    ℕ → List (List String) → Bool
  | _, [] => true
  | i, route :: rest =>
    match vehs[i]? with
    | none => false
    | some v =>
      if routeWeight dels route ≤ v.max_capacity then checkRoutesFrom dels vehs (i + 1) rest
      else false

/-- `validate_solution(solution, deliveries, vehicles)`, textually identical
in `GreedyOptimizer`, `GeneticAlgorithmOptimizer` and
`SimulatedAnnealingOptimizer`: first `set(all ids) != set(solution ids)`
(a set comparison, built with `set.update`), then the capacity loop. -/
def validateSolution (sol : RouteSolution) (dels : List Delivery)
    (vehs : List VehicleConstraints) : Bool :=
  let allIds := dels.map (·.id)
  let solIds := sol.routes.flatten
  ((allIds.all fun id => solIds.contains id) && (solIds.all fun id => allIds.contains id))
  && checkRoutesFrom dels vehs 0 sol.routes

theorem checkRoutesFrom_iff (dels : List Delivery) (vehs : List VehicleConstraints) :
    ∀ (routes : List (List String)) (i : ℕ),
      checkRoutesFrom dels vehs i routes = true ↔
        ∀ j (h : j < routes.length), ∃ h2 : i + j < vehs.length,
          routeWeight dels (routes.get ⟨j, h⟩) ≤ (vehs.get ⟨i + j, h2⟩).max_capacity := by
  intro routes
  induction routes with
  | nil => simp [checkRoutesFrom]
  | cons route rest ih =>
    intro i
    rw [checkRoutesFrom]
    rcases hv : vehs[i]? with _ | v
    · simp only [List.getElem?_eq_none_iff] at hv
      constructor
      · intro h; exact absurd h (by simp)
      · intro h
        rcases h 0 (by simp) with ⟨h2, _⟩
        omega
    · rw [List.getElem?_eq_some_iff] at hv
      rcases hv with ⟨hvlt, hveq⟩
      by_cases hw : routeWeight dels route ≤ v.max_capacity
      · simp only [hw, if_true, ih (i + 1)]
        constructor
        · intro h j hj
          cases j with
          | zero => exact ⟨by omega, by simpa [← hveq] using hw⟩
          | succ j2 =>
            rcases h j2 (by simpa using hj) with ⟨h2, hle⟩
            exact ⟨by omega, by simpa [Nat.add_comm, Nat.add_left_comm, Nat.add_assoc] using hle⟩
        · intro h j hj
          rcases h (j + 1) (by simpa using hj) with ⟨h2, hle⟩
          refine ⟨by omega, ?_⟩
          have : i + (j + 1) = i + 1 + j := by omega
          simpa [this] using hle
      · simp only [hw, if_false]
        constructor
        · intro h; exact absurd h (by simp)
        · intro h
          rcases h 0 (by simp) with ⟨h2, hle⟩
          exact absurd (by simpa [← hveq] using hle) hw

/-- C2 (amended): `validate_solution` is true iff (a) the ids across routes
and the input delivery ids are equal **as sets** (multiplicity across routes
is not checked), and (b) every route index has a corresponding vehicle and
its route weight, with each occurrence counted, is at most that vehicle's
`max_capacity`. -/
theorem validate_solution_iff (sol : RouteSolution) (dels : List Delivery)
    (vehs : List VehicleConstraints) :
    validateSolution sol dels vehs = true ↔
      ((∀ id, id ∈ sol.routes.flatten ↔ id ∈ dels.map Delivery.id) ∧
       ∀ i (h : i < sol.routes.length), ∃ h2 : i < vehs.length,
         routeWeight dels (sol.routes.get ⟨i, h⟩) ≤ (vehs.get ⟨i, h2⟩).max_capacity) := by
  unfold validateSolution
  rw [Bool.and_eq_true, Bool.and_eq_true, List.all_eq_true, List.all_eq_true,
    checkRoutesFrom_iff]
  constructor
  · rintro ⟨⟨h1, h2⟩, h3⟩
    refine ⟨fun id => ⟨fun hm => ?_, fun hm => ?_⟩, fun i h => by simpa using h3 i h⟩
    · simpa [List.elem_iff] using h2 id hm
    · simpa [List.elem_iff] using h1 id hm
  · rintro ⟨h12, h3⟩
    exact ⟨⟨fun id hm => by simp [List.elem_iff, (h12 id).mpr hm],
           fun id hm => by simp [List.elem_iff, (h12 id).mp hm]⟩,
          fun i h => by simpa using h3 i h⟩

/-- C2 counterexample: a solution in which id `"a"` appears in two different
routes is accepted by `validate_solution` (the claimed
"no id appearing more than once across routes" is not checked), refuting the
claimed iff at this input. -/
theorem validate_solution_counterexample :
    validateSolution
      { routes := [["a"], ["a", "b"]], total_distance := 0, total_cost := 0,
        fitness_score := 0, violations := [] }
      [{ id := "a", location := (0, 0), priority := 2, weight := 1 },
       { id := "b", location := (0, 0), priority := 2, weight := 1 }]
      [{ max_capacity := 10, max_range := 10, fuel_cost_per_km := 0, driver_cost_per_hour := 0 },
       { max_capacity := 10, max_range := 10, fuel_cost_per_km := 0, driver_cost_per_hour := 0 }]
      = true
    ∧ List.count "a" [["a"], ["a", "b"]].flatten = 2 := by
  constructor
  · with_unfolding_all decide
  · decide

end HospitalRoutes

namespace HospitalRoutes

/-- Keys of a Python dict built by repeated insertion: first-occurrence
order, later duplicates only overwrite the value. -/
def pyDictKeys (l : List String) : List String :=
  l.foldl (fun acc id => if id ∈ acc then acc else acc ++ [id]) []

/-- greedy_optimizer.py `_solve_greedy` candidate order: ids of critical
(`priority == 1`) deliveries first, then the rest, both in dict order. -/
def priorityOrder (dels : List Delivery) : List String :=
  let keys := pyDictKeys (dels.map (·.id))
  (keys.filter fun id =>
    match deliveryDict dels id with
    | some d => d.priority == 1
    | none => false)
  ++ (keys.filter fun id =>
    match deliveryDict dels id with
    | some d => d.priority != 1
    | none => false)

/-- greedy_optimizer.py `_solve_greedy` inner candidate scan: nearest
still-unassigned delivery that fits the remaining capacity and range
budget; `float('inf')` is `⊤ : WithTop ℚ`.  Candidates not in
`remaining` are skipped (`if delivery_id not in remaining_deliveries`). -/
def findNearest (mat : Matrix) (dels : List Delivery) (veh : VehicleConstraints)
    (remaining : List String) (cur : String) (w : ℚ) (r : WithTop ℚ) :
    List String → Option (Delivery × String × WithTop ℚ) → WithTop ℚ →
      Option (Delivery × String × WithTop ℚ)
  | [], best, _ => best
  | id :: rest, best, bestD =>
    if id ∈ remaining then
      match deliveryDict dels id with
      | some d =>
        let dist : WithTop ℚ :=
          match mget mat (cur, id) with
          | some v => (v : WithTop ℚ)
          | none => ⊤
        if w + d.weight ≤ veh.max_capacity ∧ r + dist ≤ (veh.max_range : WithTop ℚ) then
          if dist < bestD then
            findNearest mat dels veh remaining cur w r rest (some (d, id, dist)) dist
          else findNearest mat dels veh remaining cur w r rest best bestD
        else findNearest mat dels veh remaining cur w r rest best bestD
      | none => findNearest mat dels veh remaining cur w r rest best bestD
    else findNearest mat dels veh remaining cur w r rest best bestD

/-- greedy_optimizer.py `_solve_greedy` per-vehicle `while` loop.  `order`
is the static priority-sorted candidate list (the mutable `delivery_order`
always equals its restriction to `remaining`, and the
`if delivery_order else` fallback is unreachable while `remaining` is
non-empty).  The fuel equals `remaining.length` at the outer call and every
step removes one assigned id, so the `0` case is never reached; Python's
falsy check `if nearest_id:` ends the route on an empty-string id. -/
def greedyRoute (mat : Matrix) (dels : List Delivery) (veh : VehicleConstraints)
    (order : List String) :
    ℕ → List String → String → ℚ → WithTop ℚ → List String →
      List String × List String
  | 0, remaining, _, _, _, racc => (racc, remaining)
  | fuel + 1, remaining, cur, w, r, racc =>
    if remaining = [] then (racc, remaining)
    else
      match findNearest mat dels veh remaining cur w r order none ⊤ with
      | some (d, nid, nd) =>
        if nid = "" then (racc, remaining)
        else
          greedyRoute mat dels veh order fuel (remaining.erase nid) nid (w + d.weight)
            (r + nd) (racc ++ [nid])
      | none => (racc, remaining)

/-- greedy_optimizer.py `_solve_greedy` vehicle loop, returning the built
routes (empty routes are not appended) and the ids still unassigned. -/
def solveGreedyVehicles (mat : Matrix) (dels : List Delivery) :
    List VehicleConstraints → List String → List (List String) →
      List (List String) × List String
  | [], remaining, racc => (racc, remaining)
  | veh :: vehs, remaining, racc =>
    if remaining = [] then (racc, remaining)
    else
      let res := greedyRoute mat dels veh (priorityOrder dels) remaining.length remaining
        "depot" 0 0 []
      solveGreedyVehicles mat dels vehs res.2
        (if res.1 = [] then racc else racc ++ [res.1])

/-- greedy_optimizer.py `_solve_greedy`: nearest-neighbour construction per
vehicle, then each remaining unassigned id becomes its own singleton route
(in dict-key order). -/
def solveGreedy (mat : Matrix) (dels : List Delivery)
    (vehs : List VehicleConstraints) : List (List String) :=
  let remaining0 := pyDictKeys (dels.map (·.id))
  let res := solveGreedyVehicles mat dels vehs remaining0 []
  res.1 ++ res.2.map (fun id => [id])

/-- Round-trip route distance over the id-keyed distance matrix with
default `0.0` for missing keys, as computed by `_routes_to_solution`
(greedy and simulated annealing), by `_calculate_route_distance`
(genetic algorithm) and by `LocalSearch._calculate_route_distance`. -/
def pyRouteDistance (mat : Matrix) (route : List String) : ℚ :=
  match route.head?, route.getLast? with
  | some h, some l =>
    (mget mat ("depot", h)).getD 0
    + ((route.zip route.tail).map fun (a, b) => (mget mat (a, b)).getD 0).sum
    + (mget mat (l, "depot")).getD 0
  | _, _ => 0

/-- Total cost: per route with a corresponding vehicle, fuel cost per km
plus driver cost at an assumed 50 km/h. -/
def pyTotalCost (mat : Matrix) (vehs : List VehicleConstraints)
    (routes : List (List String)) : ℚ :=
  ((routes.zip vehs).map fun (route, v) =>
    let rd := pyRouteDistance mat route
    rd * v.fuel_cost_per_km + rd / 50 * v.driver_cost_per_hour).sum

/-- Cumulative capacity and autonomy violations recorded on the solution
(routes beyond the vehicle list are skipped). -/
def pyViolations (mat : Matrix) (dels : List Delivery) (vehs : List VehicleConstraints)
    (routes : List (List String)) : List (String × ℚ) :=
  let cap := ((routes.zip vehs).map fun (route, v) =>
    let rw := routeWeight dels route
    if rw > v.max_capacity then rw - v.max_capacity else 0).sum
  let aut := ((routes.zip vehs).map fun (route, v) =>
    let rd := pyRouteDistance mat route
    if rd > v.max_range then rd - v.max_range else 0).sum
  [("capacity", cap), ("autonomy", aut)]

/-- `_routes_to_solution` before the fitness is attached (shared, textually
identical code in greedy_optimizer.py and
simulated_annealing_optimizer.py; genetic_algorithm.py
`_routes_list_to_solution` computes the same fields). -/
def routesToSolutionBase (mat : Matrix) (dels : List Delivery)
    (vehs : List VehicleConstraints) (routes : List (List String)) : RouteSolution where
  routes := routes
  total_distance := (routes.map (pyRouteDistance mat)).sum
  total_cost := pyTotalCost mat vehs routes
  fitness_score := 0
  violations := pyViolations mat dels vehs routes

/-- Fitness of a routes list: `CompositeFitness.calculate` applied to the
freshly built solution, exactly what `_evaluate_individual` (GA) and
`_calculate_fitness` (SA) and the greedy `_routes_to_solution` compute. -/
def solutionFitness (wts : FitnessWeights) (sqrtq : ℚ → ℚ) (eucl : Point → Point → ℚ)
    (mat : Matrix) (dels : List Delivery) (vehs : List VehicleConstraints)
    (depot : Point) (routes : List (List String)) : ℚ :=
  compositeCalculate wts sqrtq eucl (routesToSolutionBase mat dels vehs routes)
    dels vehs depot mat

/-- `_routes_to_solution`: the two-phase build, fields first, then the
fitness score attached. -/
def routesToSolution (wts : FitnessWeights) (sqrtq : ℚ → ℚ) (eucl : Point → Point → ℚ)
    (mat : Matrix) (dels : List Delivery) (vehs : List VehicleConstraints)
    (depot : Point) (routes : List (List String)) : RouteSolution :=
  { routesToSolutionBase mat dels vehs routes with
    fitness_score := solutionFitness wts sqrtq eucl mat dels vehs depot routes }

/-- Body of `GreedyOptimizer.optimize` inside the `try` block: validation,
distance matrix, greedy construction, solution metrics. -/
def greedyOptimizeInner (geo : Geo) (sqrtq : ℚ → ℚ) (eucl : Point → Point → ℚ)
    (wts : FitnessWeights) (dels : List Delivery) (vehs : List VehicleConstraints)
    (depot : Point) : Except PyError OptimizationResult := do
  (validateDeliveries dels).mapError .dataValidationError
  (validateVehicles vehs).mapError .dataValidationError
  let mat := matrixEntries geo dels depot
  let routes := solveGreedy mat dels vehs
  let sol := routesToSolution wts sqrtq eucl mat dels vehs depot routes
  return { solution := sol, generations_evolved := 1,
           best_fitness_history := [sol.fitness_score] }

/-- `GreedyOptimizer.optimize`: the whole body runs under
`try/except Exception: raise OptimizationError(...) from e`, so every
failure surfaces as an `OptimizationError` wrapping the original cause.
The `config` argument is accepted but unused by the greedy optimizer. -/
def greedyOptimize (geo : Geo) (sqrtq : ℚ → ℚ) (eucl : Point → Point → ℚ)
    (wts : FitnessWeights) (dels : List Delivery) (vehs : List VehicleConstraints)
    (_cfg : OptimizationConfig) (depot : Point) : Except PyError OptimizationResult :=
  match greedyOptimizeInner geo sqrtq eucl wts dels vehs depot with
  | .ok r => .ok r
  | .error e => .error (.optimizationError e)

end HospitalRoutes

namespace HospitalRoutes

theorem findNearest_mem_remaining (mat : Matrix) (dels : List Delivery)
    (veh : VehicleConstraints) (remaining : List String) (cur : String) (w : ℚ)
    (r : WithTop ℚ) :
    ∀ (cands : List String) (best : Option (Delivery × String × WithTop ℚ))
      (bestD : WithTop ℚ),
      (∀ d nid nd, best = some (d, nid, nd) → nid ∈ remaining) →
      ∀ d nid nd,
        findNearest mat dels veh remaining cur w r cands best bestD = some (d, nid, nd) →
        nid ∈ remaining := by
  intro cands
  induction cands with
  | nil =>
    intro best bestD hb d nid nd h
    exact hb d nid nd h
  | cons id rest ih =>
    intro best bestD hb d nid nd h
    rw [findNearest] at h
    by_cases hmem : id ∈ remaining
    · simp only [hmem, if_true] at h
      cases hdd : deliveryDict dels id with
      | none =>
        rw [hdd] at h
        exact ih best bestD hb d nid nd h
      | some dd =>
        rw [hdd] at h
        simp only at h
        split at h
        · split at h
          · refine ih _ _ ?_ d nid nd h
            intro d2 nid2 nd2 he
            cases he
            exact hmem
          · exact ih best bestD hb d nid nd h
        · exact ih best bestD hb d nid nd h
    · simp only [hmem, if_false] at h
      exact ih best bestD hb d nid nd h

theorem greedyRoute_perm (mat : Matrix) (dels : List Delivery) (veh : VehicleConstraints)
    (order : List String) :
    ∀ (fuel : ℕ) (remaining : List String) (cur : String) (w : ℚ) (r : WithTop ℚ)
      (racc : List String),
      ((greedyRoute mat dels veh order fuel remaining cur w r racc).1 ++
        (greedyRoute mat dels veh order fuel remaining cur w r racc).2).Perm
        (racc ++ remaining) := by
  intro fuel
  induction fuel with
  | zero =>
    intro remaining cur w r racc
    simp [greedyRoute]
  | succ fuel ih =>
    intro remaining cur w r racc
    rw [greedyRoute]
    by_cases hrem : remaining = []
    · simp [hrem]
    · simp only [hrem, if_false]
      cases hfn : findNearest mat dels veh remaining cur w r order none ⊤ with
      | none => simp
      | some t =>
        obtain ⟨d, nid, nd⟩ := t
        by_cases hid : nid = ""
        · simp [hid]
        · simp only [hid, if_false]
          have hmem : nid ∈ remaining := by
            refine findNearest_mem_remaining mat dels veh remaining cur w r order none ⊤
              ?_ d nid nd hfn
            intro d2 nid2 nd2 he
            cases he
          have hp : remaining.Perm (nid :: remaining.erase nid) := List.perm_cons_erase hmem
          refine (ih _ _ _ _ _).trans ?_
          have heq : (racc ++ [nid]) ++ remaining.erase nid
              = racc ++ (nid :: remaining.erase nid) := by simp
          rw [heq]
          exact (hp.symm).append_left racc

theorem solveGreedyVehicles_perm (mat : Matrix) (dels : List Delivery) :
    ∀ (vehs : List VehicleConstraints) (remaining : List String)
      (racc : List (List String)),
      ((solveGreedyVehicles mat dels vehs remaining racc).1.flatten ++
        (solveGreedyVehicles mat dels vehs remaining racc).2).Perm
        (racc.flatten ++ remaining) := by
  intro vehs
  induction vehs with
  | nil =>
    intro remaining racc
    simp [solveGreedyVehicles]
  | cons veh vehs ih =>
    intro remaining racc
    rw [solveGreedyVehicles]
    by_cases hrem : remaining = []
    · simp [hrem]
    · simp only [hrem, if_false]
      have hgr := greedyRoute_perm mat dels veh (priorityOrder dels) remaining.length
        remaining "depot" 0 0 []
      by_cases hr1 : (greedyRoute mat dels veh (priorityOrder dels) remaining.length
          remaining "depot" 0 0 []).1 = []
      · simp only [hr1, if_true]
        refine (ih _ racc).trans ?_
        have h2 : (greedyRoute mat dels veh (priorityOrder dels) remaining.length
            remaining "depot" 0 0 []).2.Perm remaining := by
          simpa [hr1] using hgr
        exact h2.append_left _
      · simp only [hr1, if_false]
        refine (ih _ (racc ++ [_])).trans ?_
        have h2 : ((greedyRoute mat dels veh (priorityOrder dels) remaining.length
              remaining "depot" 0 0 []).1 ++
            (greedyRoute mat dels veh (priorityOrder dels) remaining.length
              remaining "depot" 0 0 []).2).Perm remaining := by
          simpa using hgr
        have heq : (racc ++ [(greedyRoute mat dels veh (priorityOrder dels)
              remaining.length remaining "depot" 0 0 []).1]).flatten ++
            (greedyRoute mat dels veh (priorityOrder dels) remaining.length
              remaining "depot" 0 0 []).2
            = racc.flatten ++
              ((greedyRoute mat dels veh (priorityOrder dels) remaining.length
                remaining "depot" 0 0 []).1 ++
               (greedyRoute mat dels veh (priorityOrder dels) remaining.length
                remaining "depot" 0 0 []).2) := by
          simp
        rw [heq]
        exact h2.append_left _

theorem validateDeliveriesLoop_sound :
    ∀ (dels : List Delivery) (seen : List String),
      validateDeliveriesLoop dels seen = .ok () →
      (dels.map (·.id)).Nodup ∧ ∀ x ∈ dels.map (·.id), x ∉ seen := by
  intro dels
  induction dels with
  | nil => simp
  | cons d rest ih =>
    intro seen h
    rw [validateDeliveriesLoop] at h
    split_ifs at h with h1 h2 h3 h4
    obtain ⟨hnd, hns⟩ := ih (d.id :: seen) h
    refine ⟨?_, ?_⟩
    · simp only [List.map_cons, List.nodup_cons]
      exact ⟨fun hmem => (hns _ hmem) (by simp), hnd⟩
    · intro x hx
      simp only [List.map_cons, List.mem_cons] at hx
      rcases hx with rfl | hx
      · exact h2
      · intro hxs
        exact (hns x hx) (by simp [hxs])

theorem validateDeliveries_nodup (dels : List Delivery)
    (h : validateDeliveries dels = .ok ()) : (dels.map (·.id)).Nodup := by
  unfold validateDeliveries at h
  split_ifs at h
  exact (validateDeliveriesLoop_sound dels [] h).1

theorem pyDictKeys_go :
    ∀ (l : List String) (acc : List String),
      l.Nodup → (∀ x ∈ l, x ∉ acc) →
      l.foldl (fun acc id => if id ∈ acc then acc else acc ++ [id]) acc = acc ++ l := by
  intro l
  induction l with
  | nil => simp
  | cons x rest ih =>
    intro acc hnd hdisj
    simp only [List.foldl_cons]
    have hx : x ∉ acc := hdisj x (by simp)
    rw [if_neg hx, ih (acc ++ [x]) (List.nodup_cons.mp hnd).2 ?_]
    · simp
    · intro y hy hmem
      simp only [List.mem_append, List.mem_singleton] at hmem
      rcases hmem with hm | rfl
      · exact hdisj y (by simp [hy]) hm
      · exact (List.nodup_cons.mp hnd).1 hy

theorem pyDictKeys_eq_of_nodup (l : List String) (h : l.Nodup) : pyDictKeys l = l := by
  unfold pyDictKeys
  simpa using pyDictKeys_go l [] h (by simp)

theorem flatten_singletons : ∀ (l : List String), (l.map fun id => [id]).flatten = l := by
  intro l
  induction l with
  | nil => rfl
  | cons x rest ih => simp [ih]

/-- C1: for every input that passes validation (equivalently, every
successful greedy run), the routes of the returned solution cover every
input delivery id exactly once: their concatenation is a permutation of the
input id list (which is duplicate-free by validation), because ids still
unassigned after the vehicle loop are appended as singleton routes. -/
theorem greedy_optimize_coverage (geo : Geo) (sqrtq : ℚ → ℚ) (eucl : Point → Point → ℚ)
    (wts : FitnessWeights) (dels : List Delivery) (vehs : List VehicleConstraints)
    (cfg : OptimizationConfig) (depot : Point) (res : OptimizationResult)
    (h : greedyOptimize geo sqrtq eucl wts dels vehs cfg depot = .ok res) :
    res.solution.routes.flatten.Perm (dels.map Delivery.id) := by
  unfold greedyOptimize at h
  rcases hi : greedyOptimizeInner geo sqrtq eucl wts dels vehs depot with e | r
  · rw [hi] at h
    cases h
  · rw [hi] at h
    cases h
    unfold greedyOptimizeInner at hi
    cases hv1 : validateDeliveries dels with
    | error e1 =>
      rw [hv1] at hi
      simp [Except.mapError, Bind.bind, Except.bind] at hi
    | ok u =>
      cases u
      cases hv2 : validateVehicles vehs with
      | error e2 =>
        rw [hv1, hv2] at hi
        simp [Except.mapError, Bind.bind, Except.bind] at hi
      | ok u2 =>
        cases u2
        rw [hv1, hv2] at hi
        simp only [Except.mapError, Bind.bind, Except.bind, pure, Except.pure,
          Except.ok.injEq] at hi
        subst hi
        show (routesToSolution wts sqrtq eucl (matrixEntries geo dels depot) dels vehs depot
          (solveGreedy (matrixEntries geo dels depot) dels vehs)).routes.flatten.Perm _
        rw [show (routesToSolution wts sqrtq eucl (matrixEntries geo dels depot) dels vehs
            depot (solveGreedy (matrixEntries geo dels depot) dels vehs)).routes
            = solveGreedy (matrixEntries geo dels depot) dels vehs from rfl]
        unfold solveGreedy
        have hnd := validateDeliveries_nodup dels hv1
        have hkeys : pyDictKeys (dels.map (·.id)) = dels.map (·.id) :=
          pyDictKeys_eq_of_nodup _ hnd
        rw [List.flatten_append, flatten_singletons, hkeys]
        have := solveGreedyVehicles_perm (matrixEntries geo dels depot) dels vehs
          (dels.map (·.id)) []
        simpa using this

/-- Witness for C1: a concrete successful greedy run on two deliveries and
one vehicle; the returned routes cover both ids exactly once. -/
theorem greedy_optimize_coverage_witness :
    greedyOptimize (fun _ _ => 1) (fun _ => 0) (fun _ _ => 0) defaultWeights
        [{ id := "d1", location := (0, 0), priority := 2, weight := 1 },
         { id := "d2", location := (0, 0), priority := 2, weight := 2 }]
        [{ max_capacity := 10, max_range := 10, fuel_cost_per_km := 0,
           driver_cost_per_hour := 0 }]
        {} (0, 0)
      = .ok { solution :=
                { routes := [["d1", "d2"]], total_distance := 3, total_cost := 0,
                  fitness_score := 103,
                  violations := [("capacity", 0), ("autonomy", 0)] },
              generations_evolved := 1, best_fitness_history := [103] }
    ∧ ([["d1", "d2"]] : List (List String)).flatten.Perm ["d1", "d2"] := by
  constructor
  · with_unfolding_all decide
  · exact greedy_optimize_coverage (fun _ _ => 1) (fun _ => 0) (fun _ _ => 0)
      defaultWeights
      [{ id := "d1", location := (0, 0), priority := 2, weight := 1 },
       { id := "d2", location := (0, 0), priority := 2, weight := 2 }]
      [{ max_capacity := 10, max_range := 10, fuel_cost_per_km := 0,
         driver_cost_per_hour := 0 }]
      {} (0, 0)
      { solution :=
          { routes := [["d1", "d2"]], total_distance := 3, total_cost := 0,
            fitness_score := 103,
            violations := [("capacity", 0), ("autonomy", 0)] },
        generations_evolved := 1, best_fitness_history := [103] }
      (by with_unfolding_all decide)

end HospitalRoutes

namespace HospitalRoutes

theorem sum_nonneg_eq_zero_iff :
    ∀ (l : List ℚ), (∀ x ∈ l, 0 ≤ x) → (l.sum = 0 ↔ ∀ x ∈ l, x = 0) := by
  intro l
  induction l with
  | nil => simp
  | cons x rest ih =>
    intro hnn
    have hx : 0 ≤ x := hnn x (by simp)
    have hrest : 0 ≤ rest.sum := List.sum_nonneg (fun y hy => hnn y (by simp [hy]))
    constructor
    · intro h
      have hx0 : x = 0 := by
        by_contra hne
        have : 0 < x := lt_of_le_of_ne hx (Ne.symm hne)
        have : 0 < x + rest.sum := by linarith
        simp [List.sum_cons] at h
        linarith
      have hr0 : rest.sum = 0 := by
        simp [List.sum_cons, hx0] at h
        exact h
      intro y hy
      rcases List.mem_cons.mp hy with rfl | hy2
      · exact hx0
      · exact ((ih (fun z hz => hnn z (by simp [hz]))).mp hr0) y hy2
    · intro h
      have : x = 0 := h x (by simp)
      have : rest.sum = 0 :=
        (ih (fun z hz => hnn z (by simp [hz]))).mpr (fun y hy => h y (by simp [hy]))
      simp [List.sum_cons, h x (by simp), this]

/-- Total capacity excess over the vehicle-indexed routes (the specification
side of the capacity formula in C4). -/
def totalCapacityExcess (dels : List Delivery) (vehs : List VehicleConstraints)
    (routes : List (List String)) : ℚ :=
  ((routes.zip vehs).map fun (route, v) =>
    max 0 (routeWeight dels route - v.max_capacity)).sum

theorem capacityPenaltyFrom_eq (w : ℚ) (dels : List Delivery)
    (vehs : List VehicleConstraints) :
    ∀ (routes : List (List String)) (i : ℕ), i + routes.length ≤ vehs.length →
      capacityPenaltyFrom w dels vehs i routes
        = w * ((routes.zip (vehs.drop i)).map fun (route, v) =>
            max 0 (routeWeight dels route - v.max_capacity)).sum := by
  intro routes
  induction routes with
  | nil => simp [capacityPenaltyFrom]
  | cons route rest ih =>
    intro i hlen
    have hi : i < vehs.length := by simp at hlen; omega
    have hv : vehs[i]? = some vehs[i] := List.getElem?_eq_some_iff.mpr ⟨hi, rfl⟩
    rw [capacityPenaltyFrom, hv, List.drop_eq_getElem_cons hi]
    simp only [List.zip_cons_cons, List.map_cons, List.sum_cons]
    rw [ih (i + 1) (by simp at hlen ⊢; omega)]
    have hterm : (if routeWeight dels route > vehs[i].max_capacity then
        w * (routeWeight dels route - vehs[i].max_capacity) else 0)
        = w * max 0 (routeWeight dels route - vehs[i].max_capacity) := by
      by_cases hc : routeWeight dels route > vehs[i].max_capacity
      · rw [if_pos hc, max_eq_right (by linarith)]
      · rw [if_neg hc, max_eq_left (by push_neg at hc; linarith), mul_zero]
    rw [hterm]
    ring

theorem autonomyPenaltyFrom_eq (w : ℚ) (dels : List Delivery)
    (vehs : List VehicleConstraints) (depot : Point) (mat : Matrix)
    (eucl : Point → Point → ℚ) :
    ∀ (routes : List (List String)) (i : ℕ), i + routes.length ≤ vehs.length →
      autonomyPenaltyFrom w dels vehs depot mat eucl i routes
        = w * ((routes.zip (vehs.drop i)).map fun (route, v) =>
            max 0 (autRouteDistance dels mat eucl depot route - v.max_range)).sum := by
  intro routes
  induction routes with
  | nil => simp [autonomyPenaltyFrom]
  | cons route rest ih =>
    intro i hlen
    have hi : i < vehs.length := by simp at hlen; omega
    have hv : vehs[i]? = some vehs[i] := List.getElem?_eq_some_iff.mpr ⟨hi, rfl⟩
    rw [autonomyPenaltyFrom, hv, List.drop_eq_getElem_cons hi]
    simp only [List.zip_cons_cons, List.map_cons, List.sum_cons]
    rw [ih (i + 1) (by simp at hlen ⊢; omega)]
    have hterm : (if autRouteDistance dels mat eucl depot route > vehs[i].max_range then
        w * (autRouteDistance dels mat eucl depot route - vehs[i].max_range) else 0)
        = w * max 0 (autRouteDistance dels mat eucl depot route - vehs[i].max_range) := by
      by_cases hc : autRouteDistance dels mat eucl depot route > vehs[i].max_range
      · rw [if_pos hc, max_eq_right (by linarith)]
      · rw [if_neg hc, max_eq_left (by push_neg at hc; linarith), mul_zero]
    rw [hterm]
    ring

theorem zip_excess_zero_iff (w : ℚ) (hw : 0 < w) (routes : List (List String))
    (vehs : List VehicleConstraints) (hlen : routes.length ≤ vehs.length)
    (f : List String → ℚ) (cap : VehicleConstraints → ℚ) :
    (w * ((routes.zip vehs).map fun (route, v) => max 0 (f route - cap v)).sum = 0 ↔
      ∀ i (h : i < routes.length) (h2 : i < vehs.length),
        f (routes.get ⟨i, h⟩) ≤ cap (vehs.get ⟨i, h2⟩)) := by
  have hnn : ∀ x ∈ ((routes.zip vehs).map fun (route, v) => max 0 (f route - cap v)), 0 ≤ x := by
    intro x hx
    simp only [List.mem_map] at hx
    obtain ⟨⟨route, v⟩, _, rfl⟩ := hx
    exact le_max_left 0 _
  rw [mul_eq_zero]
  constructor
  · intro h i hi h2
    rcases h with h | h
    · linarith
    · have := (sum_nonneg_eq_zero_iff _ hnn).mp h
      have hz : max 0 (f (routes.get ⟨i, hi⟩) - cap (vehs.get ⟨i, h2⟩)) = 0 := by
        apply this
        simp only [List.mem_map]
        refine ⟨(routes.get ⟨i, hi⟩, vehs.get ⟨i, h2⟩), ?_, rfl⟩
        rw [List.mem_iff_getElem]
        refine ⟨i, by rw [List.length_zip]; omega, ?_⟩
        rw [List.getElem_zip]
        simp [List.get_eq_getElem]
      have := max_eq_left_iff.mp hz
      linarith [this]
  · intro h
    right
    apply (sum_nonneg_eq_zero_iff _ hnn).mpr
    intro x hx
    simp only [List.mem_map] at hx
    obtain ⟨⟨route, v⟩, hmem, rfl⟩ := hx
    rw [List.mem_iff_getElem] at hmem
    obtain ⟨i, hilen, hieq⟩ := hmem
    rw [List.getElem_zip] at hieq
    have hi1 : i < routes.length := by rw [List.length_zip] at hilen; omega
    have hi2 : i < vehs.length := by rw [List.length_zip] at hilen; omega
    have hfb := h i hi1 hi2
    have hr : routes[i] = route := by rw [← (Prod.mk.injEq _ _ _ _).mp hieq |>.1]
    have hv : vehs[i] = v := by rw [← (Prod.mk.injEq _ _ _ _).mp hieq |>.2]
    rw [max_eq_left]
    rw [← hr, ← hv]
    simp only [List.get_eq_getElem] at hfb
    linarith

/-- C4: assuming every route index has a corresponding vehicle and every
route id names an input delivery, and the penalty weights are positive, the
capacity-penalty term is zero iff every route weight is within its vehicle's
capacity, it always equals the weight times the total excess, and the
autonomy-penalty term is zero iff every route's round-trip distance (as the
penalty computes it: depot to first stop, consecutive stops, last stop to
depot) is within its vehicle's range. -/
theorem penalty_zero_iff_feasible (wbeta wgamma : ℚ) (sol : RouteSolution)
    (dels : List Delivery) (vehs : List VehicleConstraints) (depot : Point)
    (mat : Matrix) (eucl : Point → Point → ℚ)
    (hb : 0 < wbeta) (hg : 0 < wgamma)
    (hlen : sol.routes.length ≤ vehs.length)
    (_hids : ∀ route ∈ sol.routes, ∀ id ∈ route, ∃ d ∈ dels, d.id = id) :
    (capacityPenalty wbeta sol dels vehs = 0 ↔
      ∀ i (h : i < sol.routes.length) (h2 : i < vehs.length),
        routeWeight dels (sol.routes.get ⟨i, h⟩) ≤ (vehs.get ⟨i, h2⟩).max_capacity)
    ∧ capacityPenalty wbeta sol dels vehs = wbeta * totalCapacityExcess dels vehs sol.routes
    ∧ (autonomyPenalty wgamma sol dels vehs depot mat eucl = 0 ↔
      ∀ i (h : i < sol.routes.length) (h2 : i < vehs.length),
        autRouteDistance dels mat eucl depot (sol.routes.get ⟨i, h⟩)
          ≤ (vehs.get ⟨i, h2⟩).max_range) := by
  have hcap := capacityPenaltyFrom_eq wbeta dels vehs sol.routes 0 (by omega)
  have haut := autonomyPenaltyFrom_eq wgamma dels vehs depot mat eucl sol.routes 0 (by omega)
  simp only [List.drop_zero] at hcap haut
  refine ⟨?_, ?_, ?_⟩
  · rw [capacityPenalty, hcap]
    exact zip_excess_zero_iff wbeta hb sol.routes vehs hlen _ _
  · rw [capacityPenalty, hcap, totalCapacityExcess]
  · rw [autonomyPenalty, haut]
    exact zip_excess_zero_iff wgamma hg sol.routes vehs hlen _ _

/-- Concrete inputs for the C4 witness. -/
def c4del : Delivery := { id := "a", location := (0, 0), priority := 2, weight := 1 }

/-- Concrete vehicle for the C4 witness. -/
def c4veh : VehicleConstraints :=
  { max_capacity := 10, max_range := 10, fuel_cost_per_km := 0, driver_cost_per_hour := 0 }

/-- Concrete solution for the C4 witness. -/
def c4sol : RouteSolution :=
  { routes := [["a"]], total_distance := 0, total_cost := 0, fitness_score := 0,
    violations := [] }

/-- Witness for C4: one delivery in one route, one vehicle; the capacity
penalty is zero and the feasibility bound holds. -/
theorem penalty_zero_iff_feasible_witness :
    (capacityPenalty 1000 c4sol [c4del] [c4veh] = 0 ↔
      ∀ i (h : i < c4sol.routes.length) (h2 : i < [c4veh].length),
        routeWeight [c4del] (c4sol.routes.get ⟨i, h⟩)
          ≤ ([c4veh].get ⟨i, h2⟩).max_capacity) := by
  exact (penalty_zero_iff_feasible 1000 1000 c4sol [c4del] [c4veh] (0, 0) [] (fun _ _ => 0)
    (by norm_num) (by norm_num) (by simp [c4sol])
    (by intro route hr id hid
        simp only [c4sol, List.mem_singleton] at hr
        subst hr
        simp only [List.mem_singleton] at hid
        exact ⟨c4del, by simp, by simp [c4del, hid]⟩)).1

/-- C5 (amended): the vehicle-count component of the composite fitness (both
in `calculate` and in `get_components_breakdown`) is the vehicle-penalty
weight times the total number of routes, empty routes included: it equals
ε × (number of non-empty routes + number of empty routes). -/
theorem vehicle_component_counts_all_routes (wts : FitnessWeights) (sqrtq : ℚ → ℚ)
    (eucl : Point → Point → ℚ) (sol : RouteSolution) (dels : List Delivery)
    (vehs : List VehicleConstraints) (depot : Point) (mat : Matrix) :
    (compositeBreakdown wts sqrtq eucl sol dels vehs depot mat).vehicle_penalty
      = wts.vehicle_penalty *
        (((sol.routes.filter fun r => !decide (r = [])).length : ℚ)
          + ((sol.routes.filter fun r => decide (r = [])).length : ℚ))
    ∧ compositeCalculate wts sqrtq eucl sol dels vehs depot mat
      = (compositeBreakdown wts sqrtq eucl sol dels vehs depot mat).distance
        + (compositeBreakdown wts sqrtq eucl sol dels vehs depot mat).capacity_penalty
        + (compositeBreakdown wts sqrtq eucl sol dels vehs depot mat).autonomy_penalty
        + (compositeBreakdown wts sqrtq eucl sol dels vehs depot mat).priority_penalty
        + (compositeBreakdown wts sqrtq eucl sol dels vehs depot mat).load_balance_penalty
        + wts.vehicle_penalty *
            (((sol.routes.filter fun r => !decide (r = [])).length : ℚ)
              + ((sol.routes.filter fun r => decide (r = [])).length : ℚ)) := by
  have hcount : ((sol.routes.filter fun r => !decide (r = [])).length : ℚ)
      + ((sol.routes.filter fun r => decide (r = [])).length : ℚ)
      = (sol.routes.length : ℚ) := by
    have h0 : sol.routes.length = (sol.routes.filter fun r => decide (r = [])).length
        + (sol.routes.filter fun r => !decide (r = [])).length :=
      List.length_eq_length_filter_add (fun r => decide (r = []))
    push_cast [h0]
    ring
  constructor
  · rw [hcount]
    rfl
  · rw [hcount]
    rfl

/-- C5 counterexample: with the default ε = 100, a solution with one
non-empty and one empty route gets vehicle component 200 (= ε × 2 routes),
not ε × 1 non-empty route: empty routes do contribute. -/
theorem vehicle_component_counterexample :
    (compositeBreakdown defaultWeights (fun _ => 0) (fun _ _ => 0)
        { routes := [["a"], []], total_distance := 0, total_cost := 0,
          fitness_score := 0, violations := [] }
        [{ id := "a", location := (0, 0), priority := 2, weight := 1 }]
        [{ max_capacity := 10, max_range := 10, fuel_cost_per_km := 0,
           driver_cost_per_hour := 0 },
         { max_capacity := 10, max_range := 10, fuel_cost_per_km := 0,
           driver_cost_per_hour := 0 }]
        (0, 0) []).vehicle_penalty = 200
    ∧ (([["a"], []] : List (List String)).filter fun r => !decide (r = [])).length = 1
    ∧ (200 : ℚ) ≠ defaultWeights.vehicle_penalty * 1 := by
  refine ⟨by with_unfolding_all decide, by decide, by with_unfolding_all decide⟩

end HospitalRoutes

namespace HospitalRoutes

/-- An individual / chromosome: a list of routes of delivery ids. -/
abbrev Ind : Type := List (List String)

/-- Draws consumed by one call of the mutation / neighbour operator: the
operator chosen by `random.choice(["swap", "move", "reverse"])` together
with its index draws. -/
inductive MutDraw
  | swap (k1 k2 : ℕ)
  | move (k r2 ins : ℕ)
  | rev (ridx : ℕ)
deriving Repr, DecidableEq

/-- The `all_deliveries` comprehension
`[(r_idx, d_idx, d_id) for r_idx, route in enumerate(individual) for d_idx, d_id in enumerate(route)]`,
inner enumeration starting at position `i0`. -/
def routePositions (r : ℕ) : ℕ → List String → List (ℕ × ℕ × String)
  | _, [] => []
  | i, id :: rest => (r, i, id) :: routePositions r (i + 1) rest

/-- Outer enumeration of `all_deliveries`, starting at route index `r`. -/
def positionsFrom : ℕ → Ind → List (ℕ × ℕ × String)
  | _, [] => []
  | r, route :: rest => routePositions r 0 route ++ positionsFrom (r + 1) rest

/-- `all_deliveries` of an individual. -/
def positionsOf (ind : Ind) : List (ℕ × ℕ × String) :=
  positionsFrom 0 ind

/-- In-place update `individual[r][i] = v`. -/
def setPos (ind : Ind) (r i : ℕ) (v : String) : Ind :=
  ind.set r ((ind.getD r []).set i v)

/-- genetic_algorithm.py `_route_mutate` (applied in place in the source;
modelled as returning the updated individual).  `swap` exchanges the ids at
two distinct positions of `all_deliveries` (`random.sample(all, 2)`);
`move` pops one delivery, drops its route if it became empty, and inserts
the delivery into route `r2` only when `r2` is still a valid index
afterwards — otherwise the delivery is lost; `rev` reverses one route. -/
def routeMutate (ind : Ind) (d : MutDraw) : Ind :=
  if ind = [] then ind
  else
    match d with
    | .swap k1 k2 =>
      let all := positionsOf ind
      if 2 ≤ all.length then
        let n := all.length
        let e1 := all.getD (k1 % n) (0, 0, "")
        let e2 := all.getD (k2 % n) (0, 0, "")
        setPos (setPos ind e1.1 e1.2.1 e2.2.2) e2.1 e2.2.1 e1.2.2
      else ind
    | .move k r2 ins =>
      let all := positionsOf ind
      if all.length ≠ 0 then
        let e1 := all.getD (k % all.length) (0, 0, "")
        let r2 := r2 % ind.length
        let ind1 := ind.set e1.1 ((ind.getD e1.1 []).eraseIdx e1.2.1)
        let ind2 := if ind1.getD e1.1 [] = [] then ind1.eraseIdx e1.1 else ind1
        if r2 < ind2.length then
          let tgt := ind2.getD r2 []
          ind2.set r2 (tgt.insertIdx (ins % (tgt.length + 1)) e1.2.2)
        else ind2
      else ind
    | .rev ridx =>
      let r := ridx % ind.length
      ind.set r (ind.getD r []).reverse

/-- simulated_annealing_optimizer.py `_generate_neighbor`.  Unlike the GA
mutation, its `move` clamps the target route index after an empty source
route is removed (`if r2 >= len(neighbor): r2 = len(neighbor) - 1`); when
the individual becomes empty that clamp produces `-1` and the following
`neighbor[-1]` raises an `IndexError`.  Its `reverse` also skips empty
routes, and there is no top-level empty-individual guard (swap and move
guard themselves via `all_deliveries`, reverse via `if neighbor:`). -/
def generateNeighbor (d : MutDraw) (cur : Ind) : Except PyError Ind :=
  match d with
  | .swap k1 k2 =>
    let all := positionsOf cur
    if 2 ≤ all.length then
      let n := all.length
      let e1 := all.getD (k1 % n) (0, 0, "")
      let e2 := all.getD (k2 % n) (0, 0, "")
      .ok (setPos (setPos cur e1.1 e1.2.1 e2.2.2) e2.1 e2.2.1 e1.2.2)
    else .ok cur
  | .move k r2 ins =>
    let all := positionsOf cur
    if all.length ≠ 0 then
      let e1 := all.getD (k % all.length) (0, 0, "")
      let r2 := r2 % cur.length
      let ind1 := cur.set e1.1 ((cur.getD e1.1 []).eraseIdx e1.2.1)
      if ind1.getD e1.1 [] = [] then
        let ind2 := ind1.eraseIdx e1.1
        if ind2 = [] then .error .indexError
        else
          let r2 := if ind2.length ≤ r2 then ind2.length - 1 else r2
          let tgt := ind2.getD r2 []
          .ok (ind2.set r2 (tgt.insertIdx (ins % (tgt.length + 1)) e1.2.2))
      else
        let tgt := ind1.getD r2 []
        .ok (ind1.set r2 (tgt.insertIdx (ins % (tgt.length + 1)) e1.2.2))
    else .ok cur
  | .rev ridx =>
    if cur = [] then .ok cur
    else
      let r := ridx % cur.length
      if cur.getD r [] = [] then .ok cur
      else .ok (cur.set r (cur.getD r []).reverse)

end HospitalRoutes

namespace HospitalRoutes

theorem take_getElem_drop {α : Type} (l : List α) (r : ℕ) (hr : r < l.length) :
    l = l.take r ++ l[r] :: l.drop (r + 1) := by
  conv_lhs => rw [← List.take_append_drop r l, List.drop_eq_getElem_cons hr]

theorem count_flatten_set (x : String) (l : Ind) (r : ℕ) (hr : r < l.length)
    (v : List String) :
    List.count x ((l.set r v).flatten) + List.count x l[r]
      = List.count x l.flatten + List.count x v := by
  rw [List.set_eq_take_append_cons_drop, if_pos hr]
  conv_rhs => rw [take_getElem_drop l r hr]
  simp only [List.flatten_append, List.flatten_cons, List.count_append]
  omega

theorem count_set_inner (x : String) (route : List String) (i : ℕ)
    (hi : i < route.length) (v : String) :
    List.count x (route.set i v) + List.count x [route[i]]
      = List.count x route + List.count x [v] := by
  rw [List.set_eq_take_append_cons_drop, if_pos hi]
  conv_rhs => rw [take_getElem_drop route i hi]
  simp only [List.count_append, List.count_cons, List.count_singleton, List.count_nil]
  omega

theorem count_eraseIdx_inner (x : String) (route : List String) (i : ℕ)
    (hi : i < route.length) :
    List.count x (route.eraseIdx i) + List.count x [route[i]]
      = List.count x route := by
  rw [List.eraseIdx_eq_take_drop_succ]
  conv_rhs => rw [take_getElem_drop route i hi]
  simp only [List.count_append, List.count_cons, List.count_singleton, List.count_nil]
  omega

theorem count_flatten_eraseIdx (x : String) (l : Ind) (r : ℕ) (hr : r < l.length) :
    List.count x ((l.eraseIdx r).flatten) + List.count x l[r]
      = List.count x l.flatten := by
  rw [List.eraseIdx_eq_take_drop_succ]
  conv_rhs => rw [take_getElem_drop l r hr]
  simp only [List.flatten_append, List.flatten_cons, List.count_append]
  omega

theorem count_insertIdx (x : String) (route : List String) (p : ℕ)
    (hp : p ≤ route.length) (v : String) :
    List.count x (route.insertIdx p v) = List.count x route + List.count x [v] := by
  have h := (List.perm_insertIdx v route hp).count_eq x
  simp only [List.count_cons, List.count_singleton, List.count_nil] at h ⊢
  omega

theorem routePositions_length (r : ℕ) :
    ∀ (route : List String) (i0 : ℕ), (routePositions r i0 route).length = route.length := by
  intro route
  induction route with
  | nil => intro i0; rfl
  | cons id rest ih => intro i0; simp [routePositions, ih]

theorem positionsFrom_length :
    ∀ (ind : Ind) (r0 : ℕ), (positionsFrom r0 ind).length = ind.flatten.length := by
  intro ind
  induction ind with
  | nil => intro r0; rfl
  | cons route rest ih =>
    intro r0
    simp [positionsFrom, routePositions_length, ih]

theorem routePositions_get (r : ℕ) :
    ∀ (route : List String) (i0 k : ℕ) (hk : k < route.length)
      (hk2 : k < (routePositions r i0 route).length),
      (routePositions r i0 route).get ⟨k, hk2⟩ = (r, i0 + k, route.get ⟨k, hk⟩) := by
  intro route
  induction route with
  | nil => intro i0 k hk hk2; exact absurd hk (by simp)
  | cons id rest ih =>
    intro i0 k hk hk2
    cases k with
    | zero => simp [routePositions]
    | succ k2 =>
      have hk' : k2 < rest.length := by simpa using hk
      have hk2' : k2 < (routePositions r (i0 + 1) rest).length := by
        rw [routePositions_length]; exact hk'
      have := ih (i0 + 1) k2 hk' hk2'
      simp only [routePositions, List.get_cons_succ]
      rw [this]
      congr 2
      omega

theorem positionsFrom_get_spec :
    ∀ (ind : Ind) (r0 k : ℕ) (hk : k < (positionsFrom r0 ind).length),
      ∃ (r i : ℕ) (hr : r < ind.length),
        ∃ (hi : i < (ind.get ⟨r, hr⟩).length),
          (positionsFrom r0 ind).get ⟨k, hk⟩
            = (r0 + r, i, (ind.get ⟨r, hr⟩).get ⟨i, hi⟩) := by
  intro ind
  induction ind with
  | nil => intro r0 k hk; exact absurd hk (by simp [positionsFrom])
  | cons route rest ih =>
    intro r0 k hk
    by_cases hlt : k < (routePositions r0 0 route).length
    · have hkr : k < route.length := by rwa [routePositions_length] at hlt
      refine ⟨0, k, by simp, by simpa using hkr, ?_⟩
      have hget : (positionsFrom r0 (route :: rest)).get ⟨k, hk⟩
          = (routePositions r0 0 route).get ⟨k, hlt⟩ := by
        simp only [positionsFrom]
        exact List.get_append_left _ _ hlt
      rw [hget, routePositions_get r0 route 0 k hkr hlt]
      simp
    · push_neg at hlt
      have hlen : (routePositions r0 0 route).length = route.length :=
        routePositions_length r0 route 0
      have hk2 : k - (routePositions r0 0 route).length
          < (positionsFrom (r0 + 1) rest).length := by
        have hktot := hk
        simp only [positionsFrom, List.length_append] at hktot
        omega
      obtain ⟨r, i, hr, hi, heq⟩ := ih (r0 + 1) (k - (routePositions r0 0 route).length) hk2
      refine ⟨r + 1, i, by simpa using hr, by simpa using hi, ?_⟩
      have hget : (positionsFrom r0 (route :: rest)).get ⟨k, hk⟩
          = (positionsFrom (r0 + 1) rest).get
              ⟨k - (routePositions r0 0 route).length, hk2⟩ := by
        simp only [positionsFrom]
        exact List.get_append_right _ _ hlt
      rw [hget, heq]
      have : r0 + 1 + r = r0 + (r + 1) := by omega
      rw [this]
      rfl

theorem routePositions_mem_fst (r : ℕ) :
    ∀ (route : List String) (i0 : ℕ) (e : ℕ × ℕ × String),
      e ∈ routePositions r i0 route → e.1 = r := by
  intro route
  induction route with
  | nil => intro i0 e he; exact absurd he (by simp [routePositions])
  | cons id rest ih =>
    intro i0 e he
    rcases List.mem_cons.mp he with rfl | he2
    · rfl
    · exact ih (i0 + 1) e he2

theorem positionsFrom_mem_fst :
    ∀ (ind : Ind) (r0 : ℕ) (e : ℕ × ℕ × String),
      e ∈ positionsFrom r0 ind → r0 ≤ e.1 := by
  intro ind
  induction ind with
  | nil => intro r0 e he; exact absurd he (by simp [positionsFrom])
  | cons route rest ih =>
    intro r0 e he
    rcases List.mem_append.mp he with he2 | he2
    · rw [routePositions_mem_fst r0 route 0 e he2]
    · have := ih (r0 + 1) e he2
      omega

theorem routePositions_map_proj (r : ℕ) :
    ∀ (route : List String) (i0 : ℕ),
      (routePositions r i0 route).map (fun e => (e.1, e.2.1))
        = (List.range' i0 route.length).map (fun i => (r, i)) := by
  intro route
  induction route with
  | nil => intro i0; rfl
  | cons id rest ih =>
    intro i0
    simp only [routePositions, List.length_cons, List.range'_succ, List.map_cons]
    rw [ih (i0 + 1)]

theorem positionsFrom_proj_nodup :
    ∀ (ind : Ind) (r0 : ℕ),
      ((positionsFrom r0 ind).map fun e => (e.1, e.2.1)).Nodup := by
  intro ind
  induction ind with
  | nil => intro r0; simp [positionsFrom]
  | cons route rest ih =>
    intro r0
    simp only [positionsFrom, List.map_append]
    rw [List.nodup_append]
    refine ⟨?_, ih (r0 + 1), ?_⟩
    · rw [routePositions_map_proj]
      apply List.Nodup.map
      · intro a b hab
        exact ((Prod.mk.injEq _ _ _ _).mp hab).2
      · exact List.nodup_range' 0 route.length
    · intro p hp hq
      rw [routePositions_map_proj] at hp
      simp only [List.mem_map] at hp hq
      obtain ⟨i, _, rfl⟩ := hp
      obtain ⟨e, he, heq⟩ := hq
      have hge := positionsFrom_mem_fst rest (r0 + 1) e he
      have hfst : e.1 = r0 := ((Prod.mk.injEq _ _ _ _).mp heq).1
      omega

end HospitalRoutes

namespace HospitalRoutes

theorem swap_write_perm (ind : Ind) (j1 j2 : ℕ)
    (h1 : j1 < (positionsOf ind).length) (h2 : j2 < (positionsOf ind).length) :
    (setPos (setPos ind ((positionsOf ind).get ⟨j1, h1⟩).1
        ((positionsOf ind).get ⟨j1, h1⟩).2.1 ((positionsOf ind).get ⟨j2, h2⟩).2.2)
      ((positionsOf ind).get ⟨j2, h2⟩).1 ((positionsOf ind).get ⟨j2, h2⟩).2.1
      ((positionsOf ind).get ⟨j1, h1⟩).2.2).flatten.Perm ind.flatten := by
  obtain ⟨r1, i1, hr1, hi1, he1⟩ := positionsFrom_get_spec ind 0 j1 h1
  obtain ⟨r2, i2, hr2, hi2, he2⟩ := positionsFrom_get_spec ind 0 j2 h2
  rw [List.perm_iff_count]
  intro x
  simp only [positionsOf] at h1 h2 ⊢
  rw [he1, he2]
  simp only [Nat.zero_add, List.get_eq_getElem]
  have hgd1 : ind.getD r1 [] = ind[r1] := List.getD_eq_getElem ind [] hr1
  rcases eq_or_ne r1 r2 with rfl | hne
  · -- both positions in the same route
    simp only [setPos, hgd1]
    have hlen1 : r1 < (ind.set r1 (ind[r1].set i1 ind[r1][i2])).length := by
      rw [List.length_set]; exact hr1
    have hset : (ind.set r1 (ind[r1].set i1 ind[r1][i2])).getD r1 []
        = ind[r1].set i1 ind[r1][i2] := by
      rw [List.getD_eq_getElem _ [] hlen1, List.getElem_set, if_pos rfl]
    rw [hset]
    have hi2s : i2 < (ind[r1].set i1 ind[r1][i2]).length := by
      rw [List.length_set]; exact hi2
    have hS : (ind[r1].set i1 ind[r1][i2])[i2] = ind[r1][i2] := by
      rw [List.getElem_set]
      split <;> rfl
    have e1 := count_flatten_set x (ind.set r1 (ind[r1].set i1 ind[r1][i2])) r1 hlen1
      ((ind[r1].set i1 ind[r1][i2]).set i2 ind[r1][i1])
    rw [show (ind.set r1 (ind[r1].set i1 ind[r1][i2]))[r1] = ind[r1].set i1 ind[r1][i2] by
      rw [List.getElem_set, if_pos rfl]] at e1
    have e2 := count_set_inner x (ind[r1].set i1 ind[r1][i2]) i2 hi2s ind[r1][i1]
    rw [hS] at e2
    have e3 := count_flatten_set x ind r1 hr1 (ind[r1].set i1 ind[r1][i2])
    have e4 := count_set_inner x ind[r1] i1 hi1 ind[r1][i2]
    omega
  · -- positions in two different routes
    simp only [setPos, hgd1]
    have hlen1 : r2 < (ind.set r1 (ind[r1].set i1 ind[r2][i2])).length := by
      rw [List.length_set]; exact hr2
    have hset : (ind.set r1 (ind[r1].set i1 ind[r2][i2])).getD r2 [] = ind[r2] := by
      rw [List.getD_eq_getElem _ [] hlen1, List.getElem_set, if_neg hne]
    rw [hset]
    have e1 := count_flatten_set x (ind.set r1 (ind[r1].set i1 ind[r2][i2])) r2 hlen1
      (ind[r2].set i2 ind[r1][i1])
    rw [show (ind.set r1 (ind[r1].set i1 ind[r2][i2]))[r2] = ind[r2] by
      rw [List.getElem_set, if_neg hne]] at e1
    have e2 := count_set_inner x ind[r2] i2 hi2 ind[r1][i1]
    have e3 := count_flatten_set x ind r1 hr1 (ind[r1].set i1 ind[r2][i2])
    have e4 := count_set_inner x ind[r1] i1 hi1 ind[r2][i2]
    omega

theorem routeMutate_swap_perm (ind : Ind) (k1 k2 : ℕ) :
    (routeMutate ind (.swap k1 k2)).flatten.Perm ind.flatten := by
  rw [routeMutate]
  by_cases hemp : ind = []
  · simp [hemp]
  · simp only [hemp, if_false]
    by_cases hlen : 2 ≤ (positionsOf ind).length
    · simp only [hlen, if_true]
      have hn : 0 < (positionsOf ind).length := by omega
      have hk1 : k1 % (positionsOf ind).length < (positionsOf ind).length :=
        Nat.mod_lt _ hn
      have hk2 : k2 % (positionsOf ind).length < (positionsOf ind).length :=
        Nat.mod_lt _ hn
      rw [List.getD_eq_getElem _ _ hk1, List.getD_eq_getElem _ _ hk2]
      exact swap_write_perm ind (k1 % (positionsOf ind).length)
        (k2 % (positionsOf ind).length) hk1 hk2
    · simp [hlen]

theorem routeMutate_rev_perm (ind : Ind) (ridx : ℕ) :
    (routeMutate ind (.rev ridx)).flatten.Perm ind.flatten := by
  rw [routeMutate]
  by_cases hemp : ind = []
  · simp [hemp]
  · simp only [hemp, if_false]
    have hpos : 0 < ind.length := List.length_pos.mpr hemp
    have hr : ridx % ind.length < ind.length := Nat.mod_lt _ hpos
    rw [List.getD_eq_getElem _ _ hr, List.perm_iff_count]
    intro x
    have e1 := count_flatten_set x ind (ridx % ind.length) hr
      (ind[ridx % ind.length].reverse)
    have e2 : List.count x (ind[ridx % ind.length].reverse)
        = List.count x ind[ridx % ind.length] :=
      (List.reverse_perm _).count_eq x
    omega

end HospitalRoutes

namespace HospitalRoutes

/-- The exact condition under which the GA `move` mutation loses the moved
delivery: the source route became empty (and was removed) and the drawn
target index no longer indexes a route. -/
def moveDropsDelivery (ind : Ind) (k r2 : ℕ) : Bool :=
  if ind = [] then false
  else
    let all := positionsOf ind
    if all.length ≠ 0 then
      let e1 := all.getD (k % all.length) (0, 0, "")
      let ind1 := ind.set e1.1 ((ind.getD e1.1 []).eraseIdx e1.2.1)
      if ind1.getD e1.1 [] = [] then
        decide ((ind1.eraseIdx e1.1).length ≤ r2 % ind.length)
      else false
    else false

theorem insert_mod_le (l : List String) (ins : ℕ) : ins % (l.length + 1) ≤ l.length :=
  Nat.lt_succ_iff.mp (Nat.mod_lt _ (Nat.succ_pos _))

theorem move_insert_count (x : String) (base : Ind) (r2 : ℕ) (hr2 : r2 < base.length)
    (p : ℕ) (hp : p ≤ (base.getD r2 []).length) (v : String) :
    List.count x ((base.set r2 ((base.getD r2 []).insertIdx p v)).flatten)
      = List.count x base.flatten + List.count x [v] := by
  have hgd : base.getD r2 [] = base[r2] := List.getD_eq_getElem base [] hr2
  rw [hgd] at hp ⊢
  have e1 := count_flatten_set x base r2 hr2 (base[r2].insertIdx p v)
  have e2 := count_insertIdx x base[r2] p hp v
  omega

theorem routeMutate_move_perm (ind : Ind) (k r2 ins : ℕ)
    (hdrop : moveDropsDelivery ind k r2 = false) :
    (routeMutate ind (.move k r2 ins)).flatten.Perm ind.flatten := by
  rw [routeMutate]
  by_cases hemp : ind = []
  · simp [hemp]
  · simp only [hemp, if_false]
    by_cases hall : (positionsOf ind).length ≠ 0
    · rw [if_pos hall]
      rw [moveDropsDelivery, if_neg hemp, if_pos hall] at hdrop
      have hn : 0 < (positionsOf ind).length := by omega
      have hk : k % (positionsOf ind).length < (positionsOf ind).length := Nat.mod_lt _ hn
      rw [List.getD_eq_getElem _ _ hk] at hdrop ⊢
      obtain ⟨r1, i1, hr1, hi1, he1⟩ := positionsFrom_get_spec ind 0
        (k % (positionsOf ind).length) (by simpa [positionsOf] using hk)
      have hget : (positionsOf ind)[k % (positionsOf ind).length]
          = (0 + r1, i1, (ind.get ⟨r1, hr1⟩).get ⟨i1, hi1⟩) := by
        simpa only [positionsOf, List.get_eq_getElem] using he1
      rw [hget] at hdrop ⊢
      simp only [Nat.zero_add, List.get_eq_getElem] at hdrop hi1 ⊢
      have hgd1 : ind.getD r1 [] = ind[r1] := List.getD_eq_getElem ind [] hr1
      rw [hgd1] at hdrop ⊢
      have hlen1 : r1 < (ind.set r1 (ind[r1].eraseIdx i1)).length := by
        rw [List.length_set]; exact hr1
      have hset1 : (ind.set r1 (ind[r1].eraseIdx i1)).getD r1 [] = ind[r1].eraseIdx i1 := by
        rw [List.getD_eq_getElem _ [] hlen1, List.getElem_set, if_pos rfl]
      rw [hset1] at hdrop ⊢
      have hpos : 0 < ind.length := List.length_pos.mpr hemp
      have hr2m : r2 % ind.length < ind.length := Nat.mod_lt _ hpos
      by_cases hE : ind[r1].eraseIdx i1 = []
      · rw [if_pos hE] at hdrop ⊢
        rw [decide_eq_false_iff_not, Nat.not_le] at hdrop
        rw [if_pos hdrop]
        rw [List.perm_iff_count]
        intro x
        rw [move_insert_count x _ _ hdrop _ (insert_mod_le _ ins) _]
        have e3 := count_flatten_eraseIdx x (ind.set r1 (ind[r1].eraseIdx i1)) r1 hlen1
        rw [show (ind.set r1 (ind[r1].eraseIdx i1))[r1] = ind[r1].eraseIdx i1 by
          rw [List.getElem_set, if_pos rfl]] at e3
        have hc0 : List.count x (ind[r1].eraseIdx i1) = 0 := by rw [hE]; rfl
        have e4 := count_flatten_set x ind r1 hr1 (ind[r1].eraseIdx i1)
        have e5 := count_eraseIdx_inner x ind[r1] i1 hi1
        omega
      · rw [if_neg hE] at hdrop ⊢
        have hlen2 : r2 % ind.length < (ind.set r1 (ind[r1].eraseIdx i1)).length := by
          rw [List.length_set]; exact hr2m
        rw [if_pos hlen2]
        rw [List.perm_iff_count]
        intro x
        rw [move_insert_count x _ _ hlen2 _ (insert_mod_le _ ins) _]
        have e4 := count_flatten_set x ind r1 hr1 (ind[r1].eraseIdx i1)
        have e5 := count_eraseIdx_inner x ind[r1] i1 hi1
        omega
    · rw [if_neg hall]

theorem generateNeighbor_perm (d : MutDraw) (cur nb : Ind)
    (h : generateNeighbor d cur = .ok nb) : nb.flatten.Perm cur.flatten := by
  cases d with
  | swap k1 k2 =>
    rw [generateNeighbor] at h
    by_cases hlen : 2 ≤ (positionsOf cur).length
    · rw [if_pos hlen] at h
      simp only [Except.ok.injEq] at h
      subst h
      have hn : 0 < (positionsOf cur).length := by omega
      have hk1 : k1 % (positionsOf cur).length < (positionsOf cur).length := Nat.mod_lt _ hn
      have hk2 : k2 % (positionsOf cur).length < (positionsOf cur).length := Nat.mod_lt _ hn
      rw [List.getD_eq_getElem _ _ hk1, List.getD_eq_getElem _ _ hk2]
      exact swap_write_perm cur (k1 % (positionsOf cur).length)
        (k2 % (positionsOf cur).length) hk1 hk2
    · rw [if_neg hlen] at h
      simp only [Except.ok.injEq] at h
      subst h
      exact List.Perm.refl _
  | move k r2 ins =>
    rw [generateNeighbor] at h
    by_cases hall : (positionsOf cur).length ≠ 0
    · rw [if_pos hall] at h
      have hn : 0 < (positionsOf cur).length := by omega
      have hk : k % (positionsOf cur).length < (positionsOf cur).length := Nat.mod_lt _ hn
      rw [List.getD_eq_getElem _ _ hk] at h
      obtain ⟨r1, i1, hr1, hi1, he1⟩ := positionsFrom_get_spec cur 0
        (k % (positionsOf cur).length) (by simpa [positionsOf] using hk)
      have hget : (positionsOf cur)[k % (positionsOf cur).length]
          = (0 + r1, i1, (cur.get ⟨r1, hr1⟩).get ⟨i1, hi1⟩) := by
        simpa only [positionsOf, List.get_eq_getElem] using he1
      rw [hget] at h
      simp only [Nat.zero_add, List.get_eq_getElem] at h hi1
      have hemp : cur ≠ [] := by
        intro hc
        subst hc
        exact absurd hr1 (by simp)
      have hpos : 0 < cur.length := List.length_pos.mpr hemp
      have hr2m : r2 % cur.length < cur.length := Nat.mod_lt _ hpos
      have hgd1 : cur.getD r1 [] = cur[r1] := List.getD_eq_getElem cur [] hr1
      rw [hgd1] at h
      have hlen1 : r1 < (cur.set r1 (cur[r1].eraseIdx i1)).length := by
        rw [List.length_set]; exact hr1
      have hset1 : (cur.set r1 (cur[r1].eraseIdx i1)).getD r1 [] = cur[r1].eraseIdx i1 := by
        rw [List.getD_eq_getElem _ [] hlen1, List.getElem_set, if_pos rfl]
      rw [hset1] at h
      by_cases hE : cur[r1].eraseIdx i1 = []
      · rw [if_pos hE] at h
        by_cases h2E : (cur.set r1 (cur[r1].eraseIdx i1)).eraseIdx r1 = []
        · rw [if_pos h2E] at h
          cases h
        · rw [if_neg h2E] at h
          simp only [Except.ok.injEq] at h
          subst h
          have hposE : 0 < ((cur.set r1 (cur[r1].eraseIdx i1)).eraseIdx r1).length :=
            List.length_pos.mpr h2E
          have hlt2 : (if ((cur.set r1 (cur[r1].eraseIdx i1)).eraseIdx r1).length
                ≤ r2 % cur.length
              then ((cur.set r1 (cur[r1].eraseIdx i1)).eraseIdx r1).length - 1
              else r2 % cur.length)
              < ((cur.set r1 (cur[r1].eraseIdx i1)).eraseIdx r1).length := by
            split
            · omega
            · omega
          rw [List.perm_iff_count]
          intro x
          rw [move_insert_count x _ _ hlt2 _ (insert_mod_le _ ins) _]
          have e3 := count_flatten_eraseIdx x (cur.set r1 (cur[r1].eraseIdx i1)) r1 hlen1
          rw [show (cur.set r1 (cur[r1].eraseIdx i1))[r1] = cur[r1].eraseIdx i1 by
            rw [List.getElem_set, if_pos rfl]] at e3
          have hc0 : List.count x (cur[r1].eraseIdx i1) = 0 := by rw [hE]; rfl
          have e4 := count_flatten_set x cur r1 hr1 (cur[r1].eraseIdx i1)
          have e5 := count_eraseIdx_inner x cur[r1] i1 hi1
          omega
      · rw [if_neg hE] at h
        simp only [Except.ok.injEq] at h
        subst h
        have hlen2 : r2 % cur.length < (cur.set r1 (cur[r1].eraseIdx i1)).length := by
          rw [List.length_set]; exact hr2m
        rw [List.perm_iff_count]
        intro x
        rw [move_insert_count x _ _ hlen2 _ (insert_mod_le _ ins) _]
        have e4 := count_flatten_set x cur r1 hr1 (cur[r1].eraseIdx i1)
        have e5 := count_eraseIdx_inner x cur[r1] i1 hi1
        omega
    · rw [if_neg hall] at h
      simp only [Except.ok.injEq] at h
      subst h
      exact List.Perm.refl _
  | rev ridx =>
    rw [generateNeighbor] at h
    by_cases hemp : cur = []
    · rw [if_pos hemp] at h
      simp only [Except.ok.injEq] at h
      subst h
      exact List.Perm.refl _
    · rw [if_neg hemp] at h
      have hpos : 0 < cur.length := List.length_pos.mpr hemp
      have hr : ridx % cur.length < cur.length := Nat.mod_lt _ hpos
      by_cases hrq : cur.getD (ridx % cur.length) [] = []
      · rw [if_pos hrq] at h
        simp only [Except.ok.injEq] at h
        subst h
        exact List.Perm.refl _
      · rw [if_neg hrq] at h
        simp only [Except.ok.injEq] at h
        subst h
        rw [List.getD_eq_getElem _ _ hr, List.perm_iff_count]
        intro x
        have e1 := count_flatten_set x cur (ridx % cur.length) hr
          (cur[ridx % cur.length].reverse)
        have e2 : List.count x (cur[ridx % cur.length].reverse)
            = List.count x cur[ridx % cur.length] :=
          (List.reverse_perm _).count_eq x
        omega

end HospitalRoutes

namespace HospitalRoutes

/-- C10 (amended): the `swap` and `reverse` operators of both the GA
mutation and the SA neighbour generator always preserve the multiset of
delivery ids; the SA `move` preserves it whenever it returns (its only other
behaviour is an `IndexError`); the GA `move` preserves it exactly when the
drop condition `moveDropsDelivery` does not hold — when the source route
becomes empty and the drawn target index pointed at the removed slot, the
moved delivery is silently lost. -/
theorem mutation_operators_preserve_ids :
    (∀ (ind : Ind) (k1 k2 : ℕ), (routeMutate ind (.swap k1 k2)).flatten.Perm ind.flatten)
    ∧ (∀ (ind : Ind) (ridx : ℕ), (routeMutate ind (.rev ridx)).flatten.Perm ind.flatten)
    ∧ (∀ (ind : Ind) (k r2 ins : ℕ), moveDropsDelivery ind k r2 = false →
        (routeMutate ind (.move k r2 ins)).flatten.Perm ind.flatten)
    ∧ (∀ (d : MutDraw) (cur nb : Ind), generateNeighbor d cur = .ok nb →
        nb.flatten.Perm cur.flatten) :=
  ⟨routeMutate_swap_perm, routeMutate_rev_perm, routeMutate_move_perm, generateNeighbor_perm⟩

/-- Witness for C10: concrete non-dropping GA move and a concrete SA
reverse, both preserving the id multiset. -/
theorem mutation_operators_preserve_ids_witness :
    moveDropsDelivery [["a", "b"]] 0 1 = false
    ∧ (routeMutate [["a", "b"]] (.move 0 1 0)).flatten.Perm ([["a", "b"]] : Ind).flatten
    ∧ generateNeighbor (.rev 0) [["a", "b"]] = .ok [["b", "a"]]
    ∧ ([["b", "a"]] : Ind).flatten.Perm ([["a", "b"]] : Ind).flatten := by
  refine ⟨by decide, ?_, by decide, ?_⟩
  · exact mutation_operators_preserve_ids.2.2.1 [["a", "b"]] 0 1 0 (by decide)
  · exact mutation_operators_preserve_ids.2.2.2 (.rev 0) [["a", "b"]] [["b", "a"]] (by decide)

/-- C10 counterexample: the GA `move` mutation on `[["a"], ["b"]]` with the
delivery "a" drawn (its singleton route is removed) and target route index 1
returns `[["b"]]`: the id "a" is dropped, so the operator does not preserve
the multiset of delivery ids. -/
theorem mutation_move_drop_counterexample :
    routeMutate [["a"], ["b"]] (.move 0 1 0) = [["b"]]
    ∧ ¬ (([["b"]] : Ind).flatten.Perm ([["a"], ["b"]] : Ind).flatten) :=
  ⟨by decide, by decide⟩

end HospitalRoutes

namespace HospitalRoutes

/-- local_search.py `_two_opt` segment reversal
`best_route[:i] + best_route[i:j][::-1] + best_route[j:]`. -/
def segRev (r : List String) (i j : ℕ) : List String :=
  r.take i ++ ((r.drop i).take (j - i)).reverse ++ r.drop j

/-- Scan order of the 2-opt double loop: `i` in `range(1, n-2)`, `j` in
`range(i+1, n)` with `j - i == 1` skipped. -/
def twoOptPairs (n : ℕ) : List (ℕ × ℕ) :=
  (List.range' 1 (n - 3)).flatMap fun i =>
    (List.range' (i + 2) (n - (i + 2))).map fun j => (i, j)

/-- First segment reversal that strictly decreases the round-trip distance
(the double loop breaks out of both loops on the first improvement). -/
def findImprove (mat : Matrix) (best : List String) (bd : ℚ) :
    List (ℕ × ℕ) → Option (List String × ℚ)
  | [] => none
  | (i, j) :: rest =>
    let nr := segRev best i j
    let nd := pyRouteDistance mat nr
    if nd < bd then some (nr, nd) else findImprove mat best bd rest

/-- local_search.py `_two_opt` improvement loop (`while improved`); the
Python loop terminates because the tracked distance strictly decreases, the
`fuel` argument bounds the number of improving steps. -/
def twoOptLoop (mat : Matrix) : ℕ → List String → ℚ → List String
  | 0, best, _ => best
  | fuel + 1, best, bd =>
    match findImprove mat best bd (twoOptPairs best.length) with
    | some (nr, nd) => twoOptLoop mat fuel nr nd
    | none => best

/-- local_search.py `_two_opt`: routes shorter than 4 stops are returned
unchanged. -/
def twoOpt (mat : Matrix) (fuel : ℕ) (route : List String) : List String :=
  if route.length < 4 then route
  else twoOptLoop mat fuel route (pyRouteDistance mat route)

/-- Python `max(range(n), key=...)`: first index of the maximal value. -/
def firstArgmaxAux : List ℚ → ℕ → ℕ → ℚ → ℕ
  | [], _, bi, _ => bi
  | v :: rest, i, bi, bv =>
    if v > bv then firstArgmaxAux rest (i + 1) i v
    else firstArgmaxAux rest (i + 1) bi bv

/-- First index of the maximal load. -/
def firstArgmax : List ℚ → ℕ
  | [] => 0
  | v :: rest => firstArgmaxAux rest 1 0 v

/-- Python `min(range(n), key=...)`: first index of the minimal value. -/
def firstArgminAux : List ℚ → ℕ → ℕ → ℚ → ℕ
  | [], _, bi, _ => bi
  | v :: rest, i, bi, bv =>
    if v < bv then firstArgminAux rest (i + 1) i v
    else firstArgminAux rest (i + 1) bi bv

/-- First index of the minimal load. -/
def firstArgmin : List ℚ → ℕ
  | [] => 0
  | v :: rest => firstArgminAux rest 1 0 v

/-- local_search.py `_balance_loads` attempt loop (at most 10 attempts):
move one randomly chosen delivery from the heaviest route to the lightest
when the heaviest exceeds 1.1 times the mean and the receiving vehicle's
capacity allows it; `remove` deletes the first occurrence. -/
def balanceAttempts (dels : List Delivery) (vehs : List VehicleConstraints)
    (mean : ℚ) (draws : ℕ → ℕ) :
    ℕ → ℕ → List (List String) → List ℚ → List (List String)
  | 0, _, routes, _ => routes
  | fuel + 1, t, routes, loads =>
    let maxIdx := firstArgmax loads
    let minIdx := firstArgmin loads
    if loads.getD maxIdx 0 ≤ mean * (11/10) then routes
    else if routes.getD maxIdx [] = [] then routes
    else
      let src := routes.getD maxIdx []
      let dtm := src.getD (draws t % src.length) ""
      match deliveryDict dels dtm with
      | some d =>
        if minIdx < vehs.length ∧
            loads.getD minIdx 0 + d.weight ≤ (vehs.getD minIdx ⟨0, 0, 0, 0⟩).max_capacity then
          let routes1 := routes.set maxIdx (src.erase dtm)
          let routes2 := routes1.set minIdx (routes1.getD minIdx [] ++ [dtm])
          let loads1 := loads.set maxIdx (loads.getD maxIdx 0 - d.weight)
          let loads2 := loads1.set minIdx (loads1.getD minIdx 0 + d.weight)
          balanceAttempts dels vehs mean draws fuel (t + 1) routes2 loads2
        else balanceAttempts dels vehs mean draws fuel (t + 1) routes loads
      | none => balanceAttempts dels vehs mean draws fuel (t + 1) routes loads

/-- local_search.py `_balance_loads` (the per-route copies `route[:]` are
identities in this pure model). -/
def balanceLoads (dels : List Delivery) (vehs : List VehicleConstraints)
    (draws : ℕ → ℕ) (routes : List (List String)) : List (List String) :=
  if routes.length < 2 then routes
  else
    let loads := routes.map (fun route => routeWeight dels route)
    if loads = [] then routes
    else
      let mean := loads.sum / (loads.length : ℚ)
      balanceAttempts dels vehs mean draws 10 0 routes loads

/-- local_search.py `_calculate_total_distance`. -/
def lsTotalDistance (mat : Matrix) (routes : List (List String)) : ℚ :=
  (routes.map (pyRouteDistance mat)).sum

/-- local_search.py `_calculate_total_cost` (flat 2.5 per km). -/
def lsTotalCost (mat : Matrix) (routes : List (List String)) : ℚ :=
  lsTotalDistance mat routes * (5/2)

/-- One pass of `improve_solution`: 2-opt on each route, load balancing,
then a fresh `RouteSolution` (its fitness is recomputed by the caller). -/
def lsPass (mat : Matrix) (dels : List Delivery) (vehs : List VehicleConstraints)
    (twoOptFuel : ℕ) (draws : ℕ → ℕ) (cur : RouteSolution) : RouteSolution :=
  let newRoutes := cur.routes.map (twoOpt mat twoOptFuel)
  let balanced := balanceLoads dels vehs draws newRoutes
  { routes := balanced
    total_distance := lsTotalDistance mat balanced
    total_cost := lsTotalCost mat balanced
    fitness_score := 0
    violations := [] }

/-- local_search.py `improve_solution` main `while improved` loop: the new
solution replaces the current one only when its fitness (from the supplied
calculator) strictly decreases; otherwise `improved` stays false and the
loop exits. -/
def improveLoop (mat : Matrix) (dels : List Delivery) (vehs : List VehicleConstraints)
    (fcalc : RouteSolution → ℚ) (twoOptFuel : ℕ) (draws : ℕ → ℕ → ℕ) :
    ℕ → ℕ → RouteSolution → ℚ → RouteSolution
  | 0, _, cur, _ => cur
  | n + 1, t, cur, curF =>
    let ns := lsPass mat dels vehs twoOptFuel (draws t) cur
    if fcalc ns < curF then
      improveLoop mat dels vehs fcalc twoOptFuel draws n (t + 1) ns (fcalc ns)
    else cur

/-- local_search.py `LocalSearch.improve_solution` with a fitness
calculator supplied (with `fitness_calculator=None` the source compares
against `float('inf')`, never replaces, and returns the input unchanged). -/
def improveSolution (mat : Matrix) (dels : List Delivery) (vehs : List VehicleConstraints)
    (fcalc : RouteSolution → ℚ) (twoOptFuel : ℕ) (draws : ℕ → ℕ → ℕ)
    (maxIterations : ℕ) (sol : RouteSolution) : RouteSolution :=
  improveLoop mat dels vehs fcalc twoOptFuel draws maxIterations 0 sol (fcalc sol)

theorem findImprove_spec (mat : Matrix) (best : List String) (bd : ℚ) :
    ∀ (pairs : List (ℕ × ℕ)) (nr : List String) (nd : ℚ),
      findImprove mat best bd pairs = some (nr, nd) →
      nd = pyRouteDistance mat nr ∧ nd < bd := by
  intro pairs
  induction pairs with
  | nil => intro nr nd h; cases h
  | cons p rest ih =>
    intro nr nd h
    obtain ⟨i, j⟩ := p
    rw [findImprove] at h
    by_cases hc : pyRouteDistance mat (segRev best i j) < bd
    · simp only [hc, if_true, Option.some.injEq] at h
      obtain ⟨rfl, rfl⟩ := Prod.mk.injEq _ _ _ _ |>.mp h.symm
      exact ⟨rfl, hc⟩
    · simp only [hc, if_false] at h
      exact ih nr nd h

theorem twoOptLoop_le (mat : Matrix) :
    ∀ (fuel : ℕ) (best : List String) (bd : ℚ), pyRouteDistance mat best ≤ bd →
      pyRouteDistance mat (twoOptLoop mat fuel best bd) ≤ bd := by
  intro fuel
  induction fuel with
  | zero => intro best bd h; exact h
  | succ fuel ih =>
    intro best bd h
    rw [twoOptLoop]
    cases hf : findImprove mat best bd (twoOptPairs best.length) with
    | none => exact h
    | some p =>
      obtain ⟨nr, nd⟩ := p
      obtain ⟨hnd, hlt⟩ := findImprove_spec mat best bd _ nr nd hf
      exact le_trans (ih nr nd (le_of_eq hnd.symm)) (le_of_lt hlt)

/-- C9: applying the Local Search Refiner's 2-opt to any route never
increases that route's round-trip distance (depot to first stop,
consecutive stops, last stop back to depot), for any distance matrix and
any bound on the improvement loop: reversals are kept only when they
strictly decrease the distance. -/
theorem two_opt_route_distance_nonincreasing (mat : Matrix) (fuel : ℕ)
    (route : List String) :
    pyRouteDistance mat (twoOpt mat fuel route) ≤ pyRouteDistance mat route := by
  rw [twoOpt]
  by_cases hlen : route.length < 4
  · rw [if_pos hlen]
  · rw [if_neg hlen]
    exact twoOptLoop_le mat fuel route (pyRouteDistance mat route) (le_refl _)

theorem improveLoop_le (mat : Matrix) (dels : List Delivery)
    (vehs : List VehicleConstraints) (fcalc : RouteSolution → ℚ) (twoOptFuel : ℕ)
    (draws : ℕ → ℕ → ℕ) :
    ∀ (n t : ℕ) (cur : RouteSolution) (curF : ℚ), fcalc cur ≤ curF →
      fcalc (improveLoop mat dels vehs fcalc twoOptFuel draws n t cur curF) ≤ curF := by
  intro n
  induction n with
  | zero => intro t cur curF h; exact h
  | succ n ih =>
    intro t cur curF h
    rw [improveLoop]
    by_cases hc : fcalc (lsPass mat dels vehs twoOptFuel (draws t) cur) < curF
    · simp only [hc, if_true]
      exact le_trans (ih (t + 1) _ _ (le_refl _)) (le_of_lt hc)
    · simp only [hc, if_false]
      exact h

/-- C8: `improve_solution` is monotonic for every input solution, every
iteration budget, every random draw sequence, every 2-opt loop bound and
every fitness calculator — the fitness of the returned solution, as
computed by that calculator, never exceeds the fitness of the input,
because a candidate pass replaces the current solution only when its
recomputed fitness is strictly lower. -/
theorem improve_solution_monotonic (mat : Matrix) (dels : List Delivery)
    (vehs : List VehicleConstraints) (fcalc : RouteSolution → ℚ) (twoOptFuel : ℕ)
    (draws : ℕ → ℕ → ℕ) (maxIterations : ℕ) (sol : RouteSolution) :
    fcalc (improveSolution mat dels vehs fcalc twoOptFuel draws maxIterations sol)
      ≤ fcalc sol := by
  rw [improveSolution]
  exact improveLoop_le mat dels vehs fcalc twoOptFuel draws maxIterations 0 sol
    (fcalc sol) (le_refl _)

end HospitalRoutes

namespace HospitalRoutes

/-- Per-iteration randomness of the SA loop: the neighbour-operator draws
and the outcome of the Metropolis test
`random.random() < math.exp(-delta / temperature)` (a boolean draw; any
actual run corresponds to some boolean sequence, and the claims proved here
hold for every sequence). -/
structure SADraws where
  op : ℕ → MutDraw
  metro : ℕ → Bool

/-- Constructor parameters of `SimulatedAnnealingOptimizer`. -/
structure SAParams where
  initial_temperature : ℚ := 1000
  cooling_rate : ℚ := 95/100
  min_temperature : ℚ := 1/10
deriving Repr, DecidableEq

/-- simulated_annealing_optimizer.py main loop.  Acceptance:
`delta < 0 or random.random() < exp(-delta/temperature)`; on acceptance the
best-ever solution is updated only when the new fitness is strictly lower,
and that value is appended to the history; geometric cooling runs after
every iteration and `temperature < min_temperature` breaks the loop.
Returns (best solution, best fitness, history, temperature,
`generations_evolved` = last iteration index + 1). -/
def saLoop (fit : Ind → ℚ) (draws : SADraws) (cooling minT : ℚ) :
    ℕ → ℕ → Ind → ℚ → Ind → ℚ → List ℚ → ℚ →
      Except PyError (Ind × ℚ × List ℚ × ℚ × ℕ)
  | 0, i, _, _, best, bestF, hist, temp => .ok (best, bestF, hist, temp, i)
  | n + 1, i, cur, curF, best, bestF, hist, temp =>
    match generateNeighbor (draws.op i) cur with
    | .error e => .error e
    | .ok nb =>
      let nbF := fit nb
      let accept : Bool := decide (nbF - curF < 0) || draws.metro i
      let cur2 := if accept then nb else cur
      let curF2 := if accept then nbF else curF
      let bupd : Bool := accept && decide (nbF < bestF)
      let best2 := if bupd then nb else best
      let bestF2 := if bupd then nbF else bestF
      let hist2 := if bupd then hist ++ [nbF] else hist
      let temp2 := temp * cooling
      if temp2 < minT then .ok (best2, bestF2, hist2, temp2, i + 1)
      else saLoop fit draws cooling minT n (i + 1) cur2 curF2 best2 bestF2 hist2 temp2

/-- The `OptimizationConfig(population_size=1, generations=1)` that
`_initial_solution` passes to the seeding greedy run. -/
def saSeedConfig : OptimizationConfig :=
  { population_size := 1, generations := 1 }

/-- Body of `SimulatedAnnealingOptimizer.optimize` inside the `try` block:
validation, distance matrix, greedy seed (a full `GreedyOptimizer()` run
with default fitness weights), then the annealing loop over
`config.generations` iterations (1000 when `generations ≤ 0`). -/
def saOptimizeInner (geo : Geo) (sqrtq : ℚ → ℚ) (eucl : Point → Point → ℚ)
    (wts : FitnessWeights) (p : SAParams) (draws : SADraws) (dels : List Delivery)
    (vehs : List VehicleConstraints) (cfg : OptimizationConfig) (depot : Point) :
    Except PyError OptimizationResult := do
  (validateDeliveries dels).mapError .dataValidationError
  (validateVehicles vehs).mapError .dataValidationError
  let mat := matrixEntries geo dels depot
  let seedRes ← greedyOptimize geo sqrtq eucl defaultWeights dels vehs saSeedConfig depot
  let seed := seedRes.solution.routes
  let curF := solutionFitness wts sqrtq eucl mat dels vehs depot seed
  let iterations := if cfg.generations > 0 then cfg.generations.toNat else 1000
  let out ← saLoop (solutionFitness wts sqrtq eucl mat dels vehs depot) draws
    p.cooling_rate p.min_temperature iterations 0 seed curF seed curF [curF]
    p.initial_temperature
  let sol := routesToSolution wts sqrtq eucl mat dels vehs depot out.1
  return { solution := sol, generations_evolved := (out.2.2.2.2 : ℤ),
           best_fitness_history := out.2.2.1 }

/-- `SimulatedAnnealingOptimizer.optimize`: the whole body runs under
`try/except Exception: raise OptimizationError(...) from e`. -/
def saOptimize (geo : Geo) (sqrtq : ℚ → ℚ) (eucl : Point → Point → ℚ)
    (wts : FitnessWeights) (p : SAParams) (draws : SADraws) (dels : List Delivery)
    (vehs : List VehicleConstraints) (cfg : OptimizationConfig) (depot : Point) :
    Except PyError OptimizationResult :=
  match saOptimizeInner geo sqrtq eucl wts p draws dels vehs cfg depot with
  | .ok r => .ok r
  | .error e => .error (.optimizationError e)

theorem saLoop_best_le (fit : Ind → ℚ) (draws : SADraws) (cooling minT : ℚ) :
    ∀ (n i : ℕ) (cur : Ind) (curF : ℚ) (best : Ind) (bestF : ℚ) (hist : List ℚ)
      (temp : ℚ) (out : Ind × ℚ × List ℚ × ℚ × ℕ),
      fit best = bestF →
      saLoop fit draws cooling minT n i cur curF best bestF hist temp = .ok out →
      fit out.1 = out.2.1 ∧ out.2.1 ≤ bestF := by
  intro n
  induction n with
  | zero =>
    intro i cur curF best bestF hist temp out hb hout
    rw [saLoop] at hout
    simp only [Except.ok.injEq] at hout
    subst hout
    exact ⟨hb, le_refl _⟩
  | succ n ih =>
    intro i cur curF best bestF hist temp out hb hout
    rw [saLoop] at hout
    cases hnb : generateNeighbor (draws.op i) cur with
    | error e => rw [hnb] at hout; cases hout
    | ok nb =>
      rw [hnb] at hout
      simp only at hout
      set accept : Bool := decide (fit nb - curF < 0) || draws.metro i with haccept
      set bupd : Bool := accept && decide (fit nb < bestF) with hbupd
      have hb2 : fit (if bupd then nb else best) = (if bupd then fit nb else bestF) := by
        by_cases hc : bupd = true
        · simp [hc]
        · simp only [Bool.not_eq_true] at hc
          simp [hc, hb]
      have hle2 : (if bupd then fit nb else bestF) ≤ bestF := by
        by_cases hc : bupd = true
        · rw [if_pos hc]
          have : decide (fit nb < bestF) = true := by
            rcases Bool.and_eq_true _ _ |>.mp (hbupd ▸ hc) with ⟨_, h2⟩
            exact h2
          exact le_of_lt (of_decide_eq_true this)
        · simp only [Bool.not_eq_true] at hc
          rw [if_neg (by simp [hc])]
      by_cases htemp : temp * cooling < minT
      · rw [if_pos htemp] at hout
        simp only [Except.ok.injEq] at hout
        subst hout
        exact ⟨hb2, hle2⟩
      · rw [if_neg htemp] at hout
        obtain ⟨h1, h2⟩ := ih (i + 1) _ _ _ _ _ _ out hb2 hout
        exact ⟨h1, le_trans h2 hle2⟩

/-- C7: every successful Simulated Annealing run returns a solution whose
fitness is at most the fitness of the Greedy seed solution: the best-ever
solution starts at the seed, is replaced only by accepted solutions of
strictly lower fitness, and is the one returned (not the final current
solution). -/
theorem sa_best_tracking (geo : Geo) (sqrtq : ℚ → ℚ) (eucl : Point → Point → ℚ)
    (wts : FitnessWeights) (p : SAParams) (draws : SADraws) (dels : List Delivery)
    (vehs : List VehicleConstraints) (cfg : OptimizationConfig) (depot : Point)
    (res seedRes : OptimizationResult)
    (h : saOptimize geo sqrtq eucl wts p draws dels vehs cfg depot = .ok res)
    (hseed : greedyOptimize geo sqrtq eucl defaultWeights dels vehs saSeedConfig depot
      = .ok seedRes) :
    res.solution.fitness_score
      ≤ solutionFitness wts sqrtq eucl (matrixEntries geo dels depot) dels vehs depot
          seedRes.solution.routes := by
  unfold saOptimize at h
  rcases hi : saOptimizeInner geo sqrtq eucl wts p draws dels vehs cfg depot with e | r
  · rw [hi] at h; cases h
  · rw [hi] at h
    cases h
    unfold saOptimizeInner at hi
    cases hv1 : validateDeliveries dels with
    | error e1 =>
      rw [hv1] at hi
      simp [Except.mapError, Bind.bind, Except.bind] at hi
    | ok u =>
      cases u
      cases hv2 : validateVehicles vehs with
      | error e2 =>
        rw [hv1, hv2] at hi
        simp [Except.mapError, Bind.bind, Except.bind] at hi
      | ok u2 =>
        cases u2
        rw [hv1, hv2, hseed] at hi
        simp only [Except.mapError, Bind.bind, Except.bind] at hi
        cases hloop : saLoop
            (solutionFitness wts sqrtq eucl (matrixEntries geo dels depot) dels vehs depot)
            draws p.cooling_rate p.min_temperature
            (if cfg.generations > 0 then cfg.generations.toNat else 1000) 0
            seedRes.solution.routes
            (solutionFitness wts sqrtq eucl (matrixEntries geo dels depot) dels vehs depot
              seedRes.solution.routes)
            seedRes.solution.routes
            (solutionFitness wts sqrtq eucl (matrixEntries geo dels depot) dels vehs depot
              seedRes.solution.routes)
            [solutionFitness wts sqrtq eucl (matrixEntries geo dels depot) dels vehs depot
              seedRes.solution.routes]
            p.initial_temperature with
        | error e => rw [hloop] at hi; simp at hi
        | ok out =>
          rw [hloop] at hi
          simp only [pure, Except.pure, Except.ok.injEq] at hi
          obtain ⟨hfit, hle⟩ := saLoop_best_le
            (solutionFitness wts sqrtq eucl (matrixEntries geo dels depot) dels vehs depot)
            draws p.cooling_rate p.min_temperature _ 0 _ _ _ _ _ _ out rfl hloop
          rw [← hi]
          show (routesToSolution wts sqrtq eucl (matrixEntries geo dels depot) dels vehs
            depot out.1).fitness_score ≤ _
          rw [show (routesToSolution wts sqrtq eucl (matrixEntries geo dels depot) dels vehs
            depot out.1).fitness_score
            = solutionFitness wts sqrtq eucl (matrixEntries geo dels depot) dels vehs depot
              out.1 from rfl]
          rw [hfit]
          exact hle

end HospitalRoutes

namespace HospitalRoutes

/-- Concrete delivery list for the C7 witness. -/
def c7dels : List Delivery := [{ id := "d1", location := (0, 0), priority := 1, weight := 1 }]

/-- Concrete vehicle list for the C7 witness. -/
def c7vehs : List VehicleConstraints :=
  [{ max_capacity := 10, max_range := 10, fuel_cost_per_km := 0, driver_cost_per_hour := 0 }]

/-- Concrete SA draws for the C7 witness: reverse the first route, never
accept via the Metropolis branch. -/
def c7draws : SADraws := ⟨fun _ => .rev 0, fun _ => false⟩

/-- Result of the concrete greedy seed run and of the concrete SA run in
the C7 witness. -/
def c7res : OptimizationResult :=
  { solution :=
      { routes := [["d1"]], total_distance := 0, total_cost := 0,
        fitness_score := 100, violations := [("capacity", 0), ("autonomy", 0)] },
    generations_evolved := 1, best_fitness_history := [100] }

/-- Witness for C7: a concrete one-iteration SA run (seeded by a concrete
greedy run) whose returned fitness is bounded by the seed fitness. -/
theorem sa_best_tracking_witness :
    c7res.solution.fitness_score
      ≤ solutionFitness defaultWeights (fun _ => 0) (fun _ _ => 0)
          (matrixEntries (fun _ _ => 0) c7dels (0, 0)) c7dels c7vehs (0, 0)
          c7res.solution.routes :=
  sa_best_tracking (fun _ _ => 0) (fun _ => 0) (fun _ _ => 0) defaultWeights {} c7draws
    c7dels c7vehs { generations := 1 } (0, 0) c7res c7res
    (by with_unfolding_all decide) (by with_unfolding_all decide)

end HospitalRoutes

namespace HospitalRoutes

/-- Per-generation randomness of the GA: tournament aspirant positions
(three `random.choice` draws per tournament), the per-pair crossover draw,
the per-individual mutation-firing draw (`random.random()`, always in
`[0, 1)`), and the mutation operator draws. -/
structure GenDraws where
  tour : ℕ → ℕ × ℕ × ℕ
  cross : ℕ → ℚ
  mutFire : ℕ → ℚ
  mutDraw : ℕ → MutDraw

/-- DEAP `selTournament(..., tournsize=3)` single tournament:
`max(aspirants, key=attrgetter("fitness"))` with the single objective
weighted `-1.0`, i.e. the first aspirant of strictly smallest cost wins.
Selection returns the individuals themselves (no clone). -/
def tournamentWinner (cost : ℕ → ℚ) (pop : List ℕ) (t : ℕ × ℕ × ℕ) : ℕ :=
  let n := pop.length
  let a1 := pop.getD (t.1 % n) 0
  let a2 := pop.getD (t.2.1 % n) 0
  let a3 := pop.getD (t.2.2 % n) 0
  let b1 := if cost a2 < cost a1 then a2 else a1
  if cost a3 < cost b1 then a3 else b1

/-- genetic_algorithm.py `_select`: `len(population)` tournaments over the
store indices (aliases, not copies). -/
def gaSelect (cost : ℕ → ℚ) (pop : List ℕ) (tour : ℕ → ℕ × ℕ × ℕ) : List ℕ :=
  (List.range pop.length).map fun j => tournamentWinner cost pop (tour j)

/-- Flattened length of a stored individual. -/
def flatLen (store : List Ind) (idx : ℕ) : ℕ :=
  ((store.getD idx []).flatten).length

/-- genetic_algorithm.py `_crossover`: for every adjacent pair whose draw
fires, `_route_crossover` builds children as plain Python lists via
`_redistribute_to_routes` (unless either flattened parent has fewer than 2
ids, in which case the parents are returned unchanged), and the following
`del offspring[i].fitness.values` on a plain list raises `AttributeError`.
This predicate is true iff some pair crashes that way. -/
def gaCrossoverErr (store : List Ind) (off : List ℕ) (rate : ℚ) (cd : ℕ → ℚ) : Bool :=
  (List.range (off.length / 2)).any fun kk =>
    decide (cd kk < rate) && decide (2 ≤ flatLen store (off.getD (2 * kk) 0))
      && decide (2 ≤ flatLen store (off.getD (2 * kk + 1) 0))

/-- genetic_algorithm.py `_mutate`: each firing draw mutates the selected
individual **in place**, so the store entry shared with the current
population is overwritten (DEAP selection returned aliases). -/
def gaMutate (rate : ℚ) (mf : ℕ → ℚ) (md : ℕ → MutDraw) (off : List ℕ)
    (store : List Ind) : List Ind :=
  (List.range off.length).foldl
    (fun st j =>
      if mf j < rate then
        let idx := off.getD j 0
        st.set idx (routeMutate (st.getD idx []) (md j))
      else st)
    store

/-- DEAP `selBest`: `sorted(individuals, key=attrgetter("fitness"),
reverse=True)[:k]`.  Python's sort is stable and with the `-1.0` weight the
order is ascending cost, so this is the stable ascending-cost sort followed
by `take k`. -/
def selBest (cost : ℕ → ℚ) (l : List ℕ) (k : ℕ) : List ℕ :=
  (List.insertionSort (fun a b => cost a ≤ cost b) l).take k

/-- One GA generation: tournament selection (over pre-variation fitness),
the crossover crash check, in-place mutation, elitist replacement over the
combined pool, and the recorded `min(fits)` of the new population
(`ValueError` when the population is empty).  Fitness values are always the
recomputed cost of the current individual: every in-place change also
invalidates the shared fitness object, which is re-evaluated before use. -/
def gaGeneration (fit : Ind → ℚ) (cfg : OptimizationConfig) (gd : GenDraws)
    (store : List Ind) (pop : List ℕ) : Except PyError (List Ind × List ℕ × ℚ) :=
  let off := gaSelect (fun i => fit (store.getD i [])) pop gd.tour
  if gaCrossoverErr store off cfg.crossover_rate gd.cross then .error .attributeError
  else
    let store2 := gaMutate cfg.mutation_rate gd.mutFire gd.mutDraw off store
    let newPop := selBest (fun i => fit (store2.getD i [])) (pop ++ off)
      cfg.population_size.toNat
    match (newPop.map fun i => fit (store2.getD i [])).min? with
    | none => .error .valueError
    | some m => .ok (store2, newPop, m)

/-- Early-stopping condition: Python truthiness makes both `None` and `0`
skip the check; any other value is compared against the counter. -/
def earlyStop (cfg : OptimizationConfig) (gwi : ℕ) : Bool :=
  match cfg.max_iterations_without_improvement with
  | some mi => decide (mi ≠ 0) && decide (mi ≤ (gwi : ℤ))
  | none => false

/-- genetic_algorithm.py evolution loop: per generation the best population
fitness is appended to the history, the best-so-far value (starting at
`float('inf')`) and the no-improvement counter drive early stopping.
Returns (store, population, history, generations evolved). -/
def gaLoop (fit : Ind → ℚ) (cfg : OptimizationConfig) (gens : ℕ → GenDraws) :
    ℕ → ℕ → List Ind → List ℕ → List ℚ → WithTop ℚ → ℕ →
      Except PyError (List Ind × List ℕ × List ℚ × ℕ)
  | 0, g, store, pop, hist, _, _ => .ok (store, pop, hist, g)
  | n + 1, g, store, pop, hist, bestF, gwi =>
    match gaGeneration fit cfg (gens g) store pop with
    | .error e => .error e
    | .ok (store2, pop2, m) =>
      let hist2 := hist ++ [m]
      let improved : Bool := decide ((m : WithTop ℚ) < bestF)
      let bestF2 := if improved then ((m : WithTop ℚ)) else bestF
      let gwi2 := if improved then 0 else gwi + 1
      if earlyStop cfg gwi2 then .ok (store2, pop2, hist2, g + 1)
      else gaLoop fit cfg gens n (g + 1) store2 pop2 hist2 bestF2 gwi2

/-- initialization_strategy.py `RandomInitializationStrategy`: the shuffled
id list (the `random.shuffle` outcome, supplied as a draw) is split into
`min(len(vehicles), len(ids))` contiguous chunks; empty chunks are
skipped. -/
def randomInit (shuffled : List String) (numVehs : ℕ) : Ind :=
  let n := shuffled.length
  let k := min numVehs n
  (List.range k).filterMap fun i =>
    let route := (shuffled.drop (i * n / k)).take ((i + 1) * n / k - i * n / k)
    if route = [] then none else some route

/-- Body of `GeneticAlgorithmOptimizer.optimize` inside the `try` block
(with the default `RandomInitializationStrategy`).  With
`config.generations ≤ 0` the `for` loop body never runs and the later
`generations_evolved=generation + 1` raises `NameError` (after
`tools.selBest(population, 1)[0]` raised `IndexError` if the initial
population is empty). -/
def gaOptimizeInner (geo : Geo) (sqrtq : ℚ → ℚ) (eucl : Point → Point → ℚ)
    (wts : FitnessWeights) (shuffles : ℕ → List String) (gens : ℕ → GenDraws)
    (dels : List Delivery) (vehs : List VehicleConstraints)
    (cfg : OptimizationConfig) (depot : Point) : Except PyError OptimizationResult := do
  (validateDeliveries dels).mapError .dataValidationError
  (validateVehicles vehs).mapError .dataValidationError
  let mat := matrixEntries geo dels depot
  let store0 := (List.range cfg.population_size.toNat).map fun i =>
    randomInit (shuffles i) vehs.length
  let pop0 := List.range store0.length
  if cfg.generations.toNat = 0 then
    if pop0 = [] then .error .indexError else .error .nameError
  else
    match gaLoop (solutionFitness wts sqrtq eucl mat dels vehs depot) cfg gens
        cfg.generations.toNat 0 store0 pop0 [] ⊤ 0 with
    | .error e => .error e
    | .ok (store2, pop2, hist, g) =>
      match (selBest (fun i => solutionFitness wts sqrtq eucl mat dels vehs depot
          (store2.getD i [])) pop2 1).head? with
      | none => .error .indexError
      | some bi =>
        .ok { solution := routesToSolution wts sqrtq eucl mat dels vehs depot
                (store2.getD bi []),
              generations_evolved := (g : ℤ), best_fitness_history := hist }

/-- `GeneticAlgorithmOptimizer.optimize`: the whole body runs under
`try/except Exception: raise OptimizationError(...) from e`. -/
def gaOptimize (geo : Geo) (sqrtq : ℚ → ℚ) (eucl : Point → Point → ℚ)
    (wts : FitnessWeights) (shuffles : ℕ → List String) (gens : ℕ → GenDraws)
    (dels : List Delivery) (vehs : List VehicleConstraints)
    (cfg : OptimizationConfig) (depot : Point) : Except PyError OptimizationResult :=
  match gaOptimizeInner geo sqrtq eucl wts shuffles gens dels vehs cfg depot with
  | .ok r => .ok r
  | .error e => .error (.optimizationError e)

end HospitalRoutes

namespace HospitalRoutes

/-- Deliveries of the concrete C3 run: one critical, one normal, identical
locations (so every geodesic and Euclidean distance in the run is exactly
0, and every load variance is exactly 0, making the zero-instantiated
oracles agree with the Python float computation at every evaluated
point). -/
def c3dels : List Delivery :=
  [{ id := "d1", location := (0, 0), priority := 1, weight := 1 },
   { id := "d2", location := (0, 0), priority := 2, weight := 1 }]

/-- Two identical vehicles for the concrete C3 run. -/
def c3vehs : List VehicleConstraints :=
  [{ max_capacity := 10, max_range := 10, fuel_cost_per_km := 0, driver_cost_per_hour := 0 },
   { max_capacity := 10, max_range := 10, fuel_cost_per_km := 0, driver_cost_per_hour := 0 }]

/-- Weights of the concrete C3 run: only the priority-delay term (10) and
the vehicle-count term (1) are active. -/
def c3wts : FitnessWeights :=
  { distance_weight := 0, capacity_penalty := 0, autonomy_penalty := 0,
    priority_penalty := 10, vehicle_penalty := 1 }

/-- Config of the concrete C3 run: population 2, two generations, no
crossover, mutation rate 1/2. -/
def c3cfg : OptimizationConfig :=
  { population_size := 2, generations := 2, crossover_rate := 0, mutation_rate := 1/2,
    elite_size := 1, max_vehicles := 2, max_iterations_without_improvement := none }

/-- Draws of the concrete C3 run: both initial shuffles give
`["d1", "d2"]`; generation 0 selects each individual once and fires no
mutation; generation 1 selects each individual once and fires the `move`
mutation on both offspring entries — which are aliases of the two
population members, so both stored individuals are rewritten in place from
`[["d1"], ["d2"]]` (fitness 2) to `[["d2", "d1"]]` (fitness 11). -/
def c3gens : ℕ → GenDraws := fun g =>
  if g = 0 then
    { tour := fun j => (j, j, j), cross := fun _ => 1, mutFire := fun _ => 1,
      mutDraw := fun _ => .rev 0 }
  else
    { tour := fun j => (j, j, j), cross := fun _ => 1, mutFire := fun _ => 0,
      mutDraw := fun _ => .move 1 0 0 }

/-- C3 counterexample: a successful GA run whose `best_fitness_history`
is `[2, 11]` — strictly increasing.  DEAP's selection returns aliases, so
the in-place mutation of generation 1 destroys both population members
(including the recorded best) before replacement can preserve them. -/
theorem ga_history_counterexample :
    ((gaOptimize (fun _ _ => 0) (fun _ => 0) (fun _ _ => 0) c3wts (fun _ => ["d1", "d2"])
        c3gens c3dels c3vehs c3cfg (0, 0)).map fun r => r.best_fitness_history)
      = .ok [2, 11]
    ∧ ¬ List.Chain' (fun a b => b ≤ a) [(2 : ℚ), 11] := by
  constructor
  · with_unfolding_all decide
  · intro hc
    have := List.chain'_cons.mp hc
    have h2 : ¬ ((11 : ℚ) ≤ 2) := by norm_num
    exact h2 this.1

end HospitalRoutes

namespace HospitalRoutes

theorem rat_min?_eq_some_iff {l : List ℚ} {m : ℚ} :
    l.min? = some m ↔ m ∈ l ∧ ∀ x ∈ l, m ≤ x := by
  haveI : Std.Antisymm (fun (a b : ℚ) => a ≤ b) := ⟨fun h1 h2 => le_antisymm h1 h2⟩
  exact List.min?_eq_some_iff (fun a => le_refl a) (fun a b => min_choice a b)
    (fun a b c => le_min_iff)

theorem foldl_fixed {α β : Type} (f : α → β → α) (l : List β) (a : α)
    (h : ∀ a0 x, x ∈ l → f a0 x = a0) : l.foldl f a = a := by
  induction l generalizing a with
  | nil => rfl
  | cons x rest ih =>
    rw [List.foldl_cons, h a x (by simp)]
    exact ih a (fun a0 y hy => h a0 y (by simp [hy]))

theorem gaMutate_no_fire (mf : ℕ → ℚ) (md : ℕ → MutDraw) (off : List ℕ)
    (store : List Ind) (h : ∀ j, 0 ≤ mf j) :
    gaMutate 0 mf md off store = store := by
  apply foldl_fixed
  intro st j _
  rw [if_neg (not_lt.mpr (h j))]

theorem getD_mod_mem {l : List ℕ} (hl : l ≠ []) (i : ℕ) :
    l.getD (i % l.length) 0 ∈ l := by
  have hpos : 0 < l.length := List.length_pos.mpr hl
  have hlt : i % l.length < l.length := Nat.mod_lt _ hpos
  rw [List.getD_eq_getElem _ _ hlt]
  exact List.getElem_mem hlt

theorem tournamentWinner_mem (cost : ℕ → ℚ) (pop : List ℕ) (hl : pop ≠ [])
    (t : ℕ × ℕ × ℕ) : tournamentWinner cost pop t ∈ pop := by
  have h1 := getD_mod_mem hl t.1
  have h2 := getD_mod_mem hl t.2.1
  have h3 := getD_mod_mem hl t.2.2
  unfold tournamentWinner
  dsimp only
  by_cases hc1 : cost (pop.getD (t.2.1 % pop.length) 0) < cost (pop.getD (t.1 % pop.length) 0)
  · rw [if_pos hc1]
    by_cases hc2 : cost (pop.getD (t.2.2 % pop.length) 0)
        < cost (pop.getD (t.2.1 % pop.length) 0)
    · rw [if_pos hc2]
      exact h3
    · rw [if_neg hc2]
      exact h2
  · rw [if_neg hc1]
    by_cases hc2 : cost (pop.getD (t.2.2 % pop.length) 0)
        < cost (pop.getD (t.1 % pop.length) 0)
    · rw [if_pos hc2]
      exact h3
    · rw [if_neg hc2]
      exact h1

theorem gaSelect_mem (cost : ℕ → ℚ) (pop : List ℕ) (tour : ℕ → ℕ × ℕ × ℕ)
    (x : ℕ) (hx : x ∈ gaSelect cost pop tour) : x ∈ pop := by
  unfold gaSelect at hx
  simp only [List.mem_map, List.mem_range] at hx
  obtain ⟨j, hj, rfl⟩ := hx
  have hl : pop ≠ [] := by
    intro hc
    subst hc
    simp at hj
  exact tournamentWinner_mem cost pop hl (tour j)

theorem selBest_min_spec (c : ℕ → ℚ) (l : List ℕ) (k : ℕ) (m : ℚ)
    (h : ((selBest c l k).map c).min? = some m) :
    (∃ hh ∈ l, c hh = m) ∧ ∀ y ∈ l, m ≤ c y := by
  unfold selBest at h
  haveI : IsTotal ℕ (fun a b : ℕ => c a ≤ c b) := ⟨fun a b => le_total (c a) (c b)⟩
  haveI : IsTrans ℕ (fun a b : ℕ => c a ≤ c b) := ⟨fun a b d h1 h2 => le_trans h1 h2⟩
  have hsorted := List.sorted_insertionSort (fun a b : ℕ => c a ≤ c b) l
  have hperm := List.perm_insertionSort (fun a b : ℕ => c a ≤ c b) l
  cases hs : List.insertionSort (fun a b : ℕ => c a ≤ c b) l with
  | nil =>
    rw [hs] at h
    simp at h
  | cons hd tl =>
    rw [hs] at h hsorted hperm
    have hhead : ∀ y ∈ tl, c hd ≤ c y := by
      intro y hy
      exact (List.pairwise_cons.mp hsorted).1 y hy
    cases k with
    | zero => simp at h
    | succ k2 =>
      rw [List.take_succ_cons] at h
      have hchar := rat_min?_eq_some_iff.mp h
      obtain ⟨hmem, hbound⟩ := hchar
      have hm : m = c hd := by
        have hle1 : m ≤ c hd := hbound (c hd) (by simp)
        have hle2 : c hd ≤ m := by
          simp only [List.mem_map, List.mem_cons] at hmem
          obtain ⟨y, hy, rfl⟩ := hmem
          rcases hy with rfl | hy2
          · exact le_refl _
          · exact hhead y (List.mem_of_mem_take hy2)
        exact le_antisymm hle1 hle2
      subst hm
      constructor
      · exact ⟨hd, hperm.mem_iff.mp (by simp), rfl⟩
      · intro y hy
        have hyin : y ∈ hd :: tl := hperm.mem_iff.mpr hy
        rcases List.mem_cons.mp hyin with rfl | hy2
        · exact le_refl _
        · exact hhead y hy2

theorem gaGeneration_no_mutation (fit : Ind → ℚ) (cfg : OptimizationConfig)
    (gd : GenDraws) (hmr : cfg.mutation_rate = 0) (hdraws : ∀ j, 0 ≤ gd.mutFire j)
    (store store2 : List Ind) (pop pop2 : List ℕ) (m : ℚ)
    (h : gaGeneration fit cfg gd store pop = .ok (store2, pop2, m)) :
    store2 = store
    ∧ (pop2.map fun i => fit (store.getD i [])).min? = some m
    ∧ (pop.map fun i => fit (store.getD i [])).min? = some m := by
  unfold gaGeneration at h
  by_cases hcx : gaCrossoverErr store (gaSelect (fun i => fit (store.getD i [])) pop
      gd.tour) cfg.crossover_rate gd.cross = true
  · rw [if_pos hcx] at h
    cases h
  · rw [if_neg hcx, hmr, gaMutate_no_fire gd.mutFire gd.mutDraw _ store hdraws] at h
    dsimp only at h
    cases hmin : ((selBest (fun i => fit (store.getD i []))
        (pop ++ gaSelect (fun i => fit (store.getD i [])) pop gd.tour)
        cfg.population_size.toNat).map fun i => fit (store.getD i [])).min? with
    | none =>
      rw [hmin] at h
      cases h
    | some mm =>
      rw [hmin] at h
      simp only [Except.ok.injEq, Prod.mk.injEq] at h
      obtain ⟨hst, hpp, hmm⟩ := h
      subst hst
      subst hpp
      subst hmm
      refine ⟨rfl, hmin, ?_⟩
      obtain ⟨⟨hh, hhmem, hheq⟩, hbound⟩ := selBest_min_spec
        (fun i => fit (store.getD i [])) _ cfg.population_size.toNat _ hmin
      apply rat_min?_eq_some_iff.mpr
      constructor
      · have hhp : hh ∈ pop := by
          rcases List.mem_append.mp hhmem with hp | ho
          · exact hp
          · exact gaSelect_mem _ pop gd.tour hh ho
        exact List.mem_map.mpr ⟨hh, hhp, hheq⟩
      · intro x hx
        obtain ⟨y, hy, rfl⟩ := List.mem_map.mp hx
        exact hbound y (List.mem_append.mpr (Or.inl hy))

theorem gaLoop_chain (fit : Ind → ℚ) (cfg : OptimizationConfig) (gens : ℕ → GenDraws)
    (hmr : cfg.mutation_rate = 0) (hdraws : ∀ g j, 0 ≤ (gens g).mutFire j) :
    ∀ (n g : ℕ) (store : List Ind) (pop : List ℕ) (hist : List ℚ)
      (bestF : WithTop ℚ) (gwi : ℕ) (out : List Ind × List ℕ × List ℚ × ℕ),
      gaLoop fit cfg gens n g store pop hist bestF gwi = .ok out →
      List.Chain' (fun a b => b ≤ a) hist →
      (∀ mm, hist.getLast? = some mm →
        (pop.map fun i => fit (store.getD i [])).min? = some mm) →
      List.Chain' (fun a b => b ≤ a) out.2.2.1 := by
  intro n
  induction n with
  | zero =>
    intro g store pop hist bestF gwi out hout hchain hlast
    rw [gaLoop] at hout
    simp only [Except.ok.injEq] at hout
    subst hout
    exact hchain
  | succ n ih =>
    intro g store pop hist bestF gwi out hout hchain hlast
    rw [gaLoop] at hout
    cases hgen : gaGeneration fit cfg (gens g) store pop with
    | error e =>
      rw [hgen] at hout
      cases hout
    | ok trip =>
      obtain ⟨store2, pop2, m⟩ := trip
      rw [hgen] at hout
      simp only at hout
      obtain ⟨hst, hmin2, hminp⟩ := gaGeneration_no_mutation fit cfg (gens g) hmr
        (hdraws g) store store2 pop pop2 m hgen
      subst hst
      have hchain2 : List.Chain' (fun a b => b ≤ a) (hist ++ [m]) := by
        rw [List.chain'_append]
        refine ⟨hchain, List.chain'_singleton m, ?_⟩
        intro x hx y hy
        simp only [List.head?_cons, Option.mem_def, Option.some.injEq] at hy
        subst hy
        have := hlast x hx
        rw [hminp] at this
        simp only [Option.some.injEq] at this
        exact le_of_eq this
      have hlast2 : ∀ mm, (hist ++ [m]).getLast? = some mm →
          (pop2.map fun i => fit (store2.getD i [])).min? = some mm := by
        intro mm hmm
        rw [List.getLast?_concat] at hmm
        simp only [Option.some.injEq] at hmm
        subst hmm
        exact hmin2
      by_cases hes : earlyStop cfg (if decide ((m : WithTop ℚ) < bestF) = true then 0
          else gwi + 1) = true
      · rw [if_pos hes] at hout
        simp only [Except.ok.injEq] at hout
        subst hout
        exact hchain2
      · rw [if_neg hes] at hout
        exact ih (g + 1) store2 pop2 (hist ++ [m]) _ _ out hout hchain2 hlast2

/-- C3 (amended): the claimed non-increase of `best_fitness_history` holds
only when no in-place variation can corrupt the population: for every
successful GA run in which mutation never fires (`mutation_rate = 0`, with
the firing draws nonnegative as `random.random()` guarantees), the
recorded best population fitness is non-increasing across generations —
elitist replacement over the combined pool then preserves the best
individual.  (As stated, the claim is false: selection aliases individuals
and a firing mutation rewrites population members in place; see the
counterexample.) -/
theorem ga_history_nonincreasing_without_mutation (geo : Geo) (sqrtq : ℚ → ℚ)
    (eucl : Point → Point → ℚ) (wts : FitnessWeights) (shuffles : ℕ → List String)
    (gens : ℕ → GenDraws) (dels : List Delivery) (vehs : List VehicleConstraints)
    (cfg : OptimizationConfig) (depot : Point) (res : OptimizationResult)
    (hmr : cfg.mutation_rate = 0)
    (hdraws : ∀ g j, 0 ≤ (gens g).mutFire j)
    (h : gaOptimize geo sqrtq eucl wts shuffles gens dels vehs cfg depot = .ok res) :
    List.Chain' (fun a b => b ≤ a) res.best_fitness_history := by
  unfold gaOptimize at h
  rcases hi : gaOptimizeInner geo sqrtq eucl wts shuffles gens dels vehs cfg depot
    with e | r
  · rw [hi] at h
    cases h
  · rw [hi] at h
    cases h
    unfold gaOptimizeInner at hi
    cases hv1 : validateDeliveries dels with
    | error e1 =>
      rw [hv1] at hi
      simp [Except.mapError, Bind.bind, Except.bind] at hi
    | ok u =>
      cases u
      cases hv2 : validateVehicles vehs with
      | error e2 =>
        rw [hv1, hv2] at hi
        simp [Except.mapError, Bind.bind, Except.bind] at hi
      | ok u2 =>
        cases u2
        rw [hv1, hv2] at hi
        simp only [Except.mapError, Bind.bind, Except.bind] at hi
        by_cases hg : cfg.generations.toNat = 0
        · rw [if_pos hg] at hi
          by_cases hp : List.range ((List.range cfg.population_size.toNat).map fun i =>
              randomInit (shuffles i) vehs.length).length = []
          · rw [if_pos hp] at hi
            cases hi
          · rw [if_neg hp] at hi
            cases hi
        · rw [if_neg hg] at hi
          cases hloop : gaLoop
              (solutionFitness wts sqrtq eucl (matrixEntries geo dels depot) dels vehs depot)
              cfg gens cfg.generations.toNat 0
              ((List.range cfg.population_size.toNat).map fun i =>
                randomInit (shuffles i) vehs.length)
              (List.range ((List.range cfg.population_size.toNat).map fun i =>
                randomInit (shuffles i) vehs.length).length)
              [] ⊤ 0 with
          | error e =>
            rw [hloop] at hi
            cases hi
          | ok quad =>
            obtain ⟨store2, pop2, hist, g⟩ := quad
            rw [hloop] at hi
            dsimp only at hi
            have hchain := gaLoop_chain
              (solutionFitness wts sqrtq eucl (matrixEntries geo dels depot) dels vehs depot)
              cfg gens hmr hdraws cfg.generations.toNat 0 _ _ [] ⊤ 0 _ hloop
              (List.chain'_nil) (by intro mm hmm; simp at hmm)
            cases hhead : (selBest (fun i => solutionFitness wts sqrtq eucl
                (matrixEntries geo dels depot) dels vehs depot (store2.getD i []))
                pop2 1).head? with
            | none =>
              rw [hhead] at hi
              cases hi
            | some bi =>
              rw [hhead] at hi
              simp only [Except.ok.injEq] at hi
              rw [← hi]
              exact hchain

end HospitalRoutes

namespace HospitalRoutes

/-- Generation draws for the C3 witness run: mutation never fires. -/
def c3gensNoMut : ℕ → GenDraws := fun _ =>
  { tour := fun j => (j, j, j), cross := fun _ => 1, mutFire := fun _ => 1,
    mutDraw := fun _ => .rev 0 }

/-- Config for the C3 witness run: as the counterexample but with
`mutation_rate = 0`. -/
def c3cfgNoMut : OptimizationConfig :=
  { population_size := 2, generations := 2, crossover_rate := 0, mutation_rate := 0,
    elite_size := 1, max_vehicles := 2, max_iterations_without_improvement := none }

/-- Result of the C3 witness run. -/
def c3resNoMut : OptimizationResult :=
  { solution :=
      { routes := [["d1"], ["d2"]], total_distance := 0, total_cost := 0,
        fitness_score := 2, violations := [("capacity", 0), ("autonomy", 0)] },
    generations_evolved := 2, best_fitness_history := [2, 2] }

/-- Witness for the amended C3: a concrete two-generation mutation-free GA
run whose history `[2, 2]` is non-increasing. -/
theorem ga_history_nonincreasing_witness :
    gaOptimize (fun _ _ => 0) (fun _ => 0) (fun _ _ => 0) c3wts (fun _ => ["d1", "d2"])
        c3gensNoMut c3dels c3vehs c3cfgNoMut (0, 0) = .ok c3resNoMut
    ∧ List.Chain' (fun a b => b ≤ a) c3resNoMut.best_fitness_history := by
  constructor
  · with_unfolding_all decide
  · exact ga_history_nonincreasing_without_mutation (fun _ _ => 0) (fun _ => 0)
      (fun _ _ => 0) c3wts (fun _ => ["d1", "d2"]) c3gensNoMut c3dels c3vehs c3cfgNoMut
      (0, 0) c3resNoMut rfl (fun g j => by norm_num [c3gensNoMut])
      (by with_unfolding_all decide)

end HospitalRoutes

namespace HospitalRoutes

theorem validateDeliveriesLoop_fields :
    ∀ (dels : List Delivery) (seen : List String),
      validateDeliveriesLoop dels seen = .ok () →
      ∀ d ∈ dels, 0 < d.weight ∧ (d.priority = 1 ∨ d.priority = 2) := by
  intro dels
  induction dels with
  | nil => simp
  | cons d rest ih =>
    intro seen h
    rw [validateDeliveriesLoop] at h
    split_ifs at h with h1 h2 h3 h4
    intro d2 hd2
    rcases List.mem_cons.mp hd2 with rfl | hd3
    · exact ⟨lt_of_not_le h3, h4⟩
    · exact ih (d.id :: seen) h d2 hd3

theorem validateDeliveries_fields (dels : List Delivery)
    (h : validateDeliveries dels = .ok ()) :
    dels ≠ [] ∧ (dels.map (·.id)).Nodup
      ∧ ∀ d ∈ dels, 0 < d.weight ∧ (d.priority = 1 ∨ d.priority = 2) := by
  unfold validateDeliveries at h
  split_ifs at h with h0
  exact ⟨h0, (validateDeliveriesLoop_sound dels [] h).1,
    validateDeliveriesLoop_fields dels [] h⟩

theorem validateVehiclesLoop_fields :
    ∀ (vehs : List VehicleConstraints),
      validateVehicles.validateVehiclesLoop vehs = .ok () →
      ∀ v ∈ vehs, 0 < v.max_capacity ∧ 0 < v.max_range
        ∧ 0 ≤ v.fuel_cost_per_km ∧ 0 ≤ v.driver_cost_per_hour := by
  intro vehs
  induction vehs with
  | nil => simp
  | cons v rest ih =>
    intro h
    rw [validateVehicles.validateVehiclesLoop] at h
    split_ifs at h with h1 h2 h3 h4
    intro v2 hv2
    rcases List.mem_cons.mp hv2 with rfl | hv3
    · exact ⟨lt_of_not_le h1, lt_of_not_le h2, le_of_not_lt h3, le_of_not_lt h4⟩
    · exact ih h v2 hv3

theorem validateVehicles_fields (vehs : List VehicleConstraints)
    (h : validateVehicles vehs = .ok ()) :
    vehs ≠ [] ∧ ∀ v ∈ vehs, 0 < v.max_capacity ∧ 0 < v.max_range
      ∧ 0 ≤ v.fuel_cost_per_km ∧ 0 ≤ v.driver_cost_per_hour := by
  cases vehs with
  | nil =>
    rw [validateVehicles] at h
    cases h
  | cons v rest =>
    rw [validateVehicles] at h
    · exact ⟨by simp, validateVehiclesLoop_fields (v :: rest) h⟩
    · intro hcon
      cases hcon

theorem greedyOptimize_wraps_validation (geo : Geo) (sqrtq : ℚ → ℚ)
    (eucl : Point → Point → ℚ) (wts : FitnessWeights) (dels : List Delivery)
    (vehs : List VehicleConstraints) (cfg : OptimizationConfig) (depot : Point)
    (hbad : ¬ (validateDeliveries dels = .ok () ∧ validateVehicles vehs = .ok ())) :
    ∃ m, greedyOptimize geo sqrtq eucl wts dels vehs cfg depot
      = .error (.optimizationError (.dataValidationError m)) := by
  cases hv1 : validateDeliveries dels with
  | error m =>
    refine ⟨m, ?_⟩
    unfold greedyOptimize greedyOptimizeInner
    rw [hv1]
    rfl
  | ok u =>
    cases u
    cases hv2 : validateVehicles vehs with
    | error m =>
      refine ⟨m, ?_⟩
      unfold greedyOptimize greedyOptimizeInner
      rw [hv1, hv2]
      rfl
    | ok u2 =>
      cases u2
      exact absurd ⟨hv1, hv2⟩ hbad

theorem saOptimize_wraps_validation (geo : Geo) (sqrtq : ℚ → ℚ)
    (eucl : Point → Point → ℚ) (wts : FitnessWeights) (p : SAParams) (draws : SADraws)
    (dels : List Delivery) (vehs : List VehicleConstraints) (cfg : OptimizationConfig)
    (depot : Point)
    (hbad : ¬ (validateDeliveries dels = .ok () ∧ validateVehicles vehs = .ok ())) :
    ∃ m, saOptimize geo sqrtq eucl wts p draws dels vehs cfg depot
      = .error (.optimizationError (.dataValidationError m)) := by
  cases hv1 : validateDeliveries dels with
  | error m =>
    refine ⟨m, ?_⟩
    unfold saOptimize saOptimizeInner
    rw [hv1]
    rfl
  | ok u =>
    cases u
    cases hv2 : validateVehicles vehs with
    | error m =>
      refine ⟨m, ?_⟩
      unfold saOptimize saOptimizeInner
      rw [hv1, hv2]
      rfl
    | ok u2 =>
      cases u2
      exact absurd ⟨hv1, hv2⟩ hbad

theorem gaOptimize_wraps_validation (geo : Geo) (sqrtq : ℚ → ℚ)
    (eucl : Point → Point → ℚ) (wts : FitnessWeights) (shuffles : ℕ → List String)
    (gens : ℕ → GenDraws) (dels : List Delivery) (vehs : List VehicleConstraints)
    (cfg : OptimizationConfig) (depot : Point)
    (hbad : ¬ (validateDeliveries dels = .ok () ∧ validateVehicles vehs = .ok ())) :
    ∃ m, gaOptimize geo sqrtq eucl wts shuffles gens dels vehs cfg depot
      = .error (.optimizationError (.dataValidationError m)) := by
  cases hv1 : validateDeliveries dels with
  | error m =>
    refine ⟨m, ?_⟩
    unfold gaOptimize gaOptimizeInner
    rw [hv1]
    rfl
  | ok u =>
    cases u
    cases hv2 : validateVehicles vehs with
    | error m =>
      refine ⟨m, ?_⟩
      unfold gaOptimize gaOptimizeInner
      rw [hv1, hv2]
      rfl
    | ok u2 =>
      cases u2
      exact absurd ⟨hv1, hv2⟩ hbad

/-- C6 (amended): for every malformed input of the claimed taxonomy, all
three optimizers fail before any search begins, but what the caller
observes is an `OptimizationError` whose cause is the internal
`DataValidationError` — the `try/except Exception` wrapper re-raises every
failure, validation included, as `OptimizationError`. -/
theorem malformed_input_wrapped_validation_error (geo : Geo) (sqrtq : ℚ → ℚ)
    (eucl : Point → Point → ℚ) (wts : FitnessWeights) (p : SAParams) (draws : SADraws)
    (shuffles : ℕ → List String) (gens : ℕ → GenDraws) (dels : List Delivery)
    (vehs : List VehicleConstraints) (cfg : OptimizationConfig) (depot : Point)
    (hbad : dels = [] ∨ vehs = [] ∨ ¬ (dels.map (·.id)).Nodup
      ∨ (∃ d ∈ dels, d.weight ≤ 0)
      ∨ (∃ d ∈ dels, d.priority ≠ 1 ∧ d.priority ≠ 2)
      ∨ (∃ v ∈ vehs, v.max_capacity ≤ 0) ∨ (∃ v ∈ vehs, v.max_range ≤ 0)
      ∨ (∃ v ∈ vehs, v.fuel_cost_per_km < 0)
      ∨ (∃ v ∈ vehs, v.driver_cost_per_hour < 0)) :
    (∃ m, greedyOptimize geo sqrtq eucl wts dels vehs cfg depot
      = .error (.optimizationError (.dataValidationError m)))
    ∧ (∃ m, saOptimize geo sqrtq eucl wts p draws dels vehs cfg depot
      = .error (.optimizationError (.dataValidationError m)))
    ∧ (∃ m, gaOptimize geo sqrtq eucl wts shuffles gens dels vehs cfg depot
      = .error (.optimizationError (.dataValidationError m))) := by
  have hnotok : ¬ (validateDeliveries dels = .ok () ∧ validateVehicles vehs = .ok ()) := by
    rintro ⟨hv1, hv2⟩
    obtain ⟨hne, hnd, hfields⟩ := validateDeliveries_fields dels hv1
    obtain ⟨hvne, hvfields⟩ := validateVehicles_fields vehs hv2
    rcases hbad with hb | hb | hb | hb | hb | hb | hb | hb | hb
    · exact hne hb
    · exact hvne hb
    · exact hb hnd
    · obtain ⟨d, hd, hw⟩ := hb
      exact absurd (hfields d hd).1 (not_lt.mpr hw)
    · obtain ⟨d, hd, hp1, hp2⟩ := hb
      rcases (hfields d hd).2 with hq | hq
      · exact hp1 hq
      · exact hp2 hq
    · obtain ⟨v, hv, hc⟩ := hb
      exact absurd (hvfields v hv).1 (not_lt.mpr hc)
    · obtain ⟨v, hv, hc⟩ := hb
      exact absurd (hvfields v hv).2.1 (not_lt.mpr hc)
    · obtain ⟨v, hv, hc⟩ := hb
      exact absurd (hvfields v hv).2.2.1 (not_le.mpr hc)
    · obtain ⟨v, hv, hc⟩ := hb
      exact absurd (hvfields v hv).2.2.2 (not_le.mpr hc)
  exact ⟨greedyOptimize_wraps_validation geo sqrtq eucl wts dels vehs cfg depot hnotok,
    saOptimize_wraps_validation geo sqrtq eucl wts p draws dels vehs cfg depot hnotok,
    gaOptimize_wraps_validation geo sqrtq eucl wts shuffles gens dels vehs cfg depot hnotok⟩

/-- Witness for the amended C6: the empty delivery list makes all three
optimizers raise the wrapped validation error. -/
theorem malformed_input_wrapped_validation_error_witness :
    ∃ m, greedyOptimize (fun _ _ => 0) (fun _ => 0) (fun _ _ => 0) defaultWeights []
        [{ max_capacity := 10, max_range := 10, fuel_cost_per_km := 0,
           driver_cost_per_hour := 0 }] {} (0, 0)
      = .error (.optimizationError (.dataValidationError m)) :=
  (malformed_input_wrapped_validation_error (fun _ _ => 0) (fun _ => 0) (fun _ _ => 0)
    defaultWeights {} ⟨fun _ => .rev 0, fun _ => false⟩ (fun _ => []) c3gensNoMut []
    [{ max_capacity := 10, max_range := 10, fuel_cost_per_km := 0,
       driver_cost_per_hour := 0 }] {} (0, 0) (Or.inl rfl)).1

/-- C6 counterexample: on an empty delivery list the greedy optimizer
raises `OptimizationError` (wrapping the `DataValidationError`), so the
caller does not observe a `DataValidationError`: the claimed exception type
is wrong. -/
theorem validation_error_type_counterexample :
    greedyOptimize (fun _ _ => 0) (fun _ => 0) (fun _ _ => 0) defaultWeights []
        [{ max_capacity := 10, max_range := 10, fuel_cost_per_km := 0,
           driver_cost_per_hour := 0 }] {} (0, 0)
      = .error (.optimizationError
          (.dataValidationError "Lista de entregas não pode estar vazia"))
    ∧ raisedDataValidation
        (greedyOptimize (fun _ _ => 0) (fun _ => 0) (fun _ _ => 0) defaultWeights []
          [{ max_capacity := 10, max_range := 10, fuel_cost_per_km := 0,
             driver_cost_per_hour := 0 }] {} (0, 0)) = false := by
  constructor
  · with_unfolding_all decide
  · with_unfolding_all decide

end HospitalRoutes
